import Mathlib

/-!
Verification of the batched migration scripts of this repository
(`src/migrate_records.js`, the upsert-overwrite variant, and
`src/unnamed/part_000`, the pre-filter / insert-new-only variant).

The JavaScript is shallowly embedded: each JS function becomes a Lean
definition of the same name; JS values that may be `null`/`undefined`
become `Option`; the `while (true)` migration loops become fuel-indexed
state-transition functions; the remote destination table becomes an
explicit list of records threaded through the loop.  JS `Date` parsing
(V8) is modelled for the exact capture shapes the regular expression can
produce, under a UTC runtime (`TZ=UTC`, the Docker default), with literal
4-digit years and V8's day-overflow normalisation.
-/

namespace Migrate

/-! ## JavaScript primitive models -/

/-- Numeric value of a (non-empty) list of ASCII digits, base 10. -/
def natOfDigits (ds : List Char) : Nat :=
  ds.foldl (fun acc c => acc * 10 + (c.toNat - 48)) 0

/-- Model of JavaScript `parseInt(s, 10)`: skip leading whitespace, an
optional sign, then a maximal run of ASCII digits; no digits means `NaN`,
modelled as `none`.  (Integer results are exact here; the scripts only
ever parse id-sized integers.) -/
def jsParseInt (s : String) : Option Int :=
  let cs := s.data.dropWhile (fun c => c.isWhitespace)
  let signed : Int × List Char :=
    match cs with
    | '+' :: rest => (1, rest)
    | '-' :: rest => (-1, rest)
    | _ => (1, cs)
  let ds := signed.2.takeWhile (fun c => c.isDigit)
  if ds.isEmpty then none else some (signed.1 * (natOfDigits ds : Int))

/-- JS `\w` character class: `[A-Za-z0-9_]`. -/
def isWordChar (c : Char) : Bool :=
  c.isAlpha || c.isDigit || c = '_'

/-- Match a literal at the head of the input, returning the rest. -/
def stripLit : List Char → List Char → Option (List Char)
  | [], cs => some cs
  | _ :: _, [] => none
  | l :: ls, c :: cs => if c = l then stripLit ls cs else none

/-- Tail of the date pattern after the day digits: a space, three `\w`
characters, a space, and four digits; returns those nine characters. -/
def matchDateTail (cs : List Char) : Option (List Char) :=
  match cs with
  | ' ' :: a :: b :: c :: ' ' :: y1 :: y2 :: y3 :: y4 :: _ =>
    if isWordChar a && isWordChar b && isWordChar c &&
       y1.isDigit && y2.isDigit && y3.isDigit && y4.isDigit
    then some (' ' :: a :: b :: c :: ' ' :: y1 :: y2 :: y3 :: [y4])
    else none
  | _ => none

/-- Try to match `/Started running on (\d{1,2} \w{3} \d{4})/` at the head
of the input, returning the capture group.  `\d{1,2}` is greedy; giving a
digit back cannot help because the tail starts with a space, so the
two-digit case does not fall back to one digit over a digit. -/
def matchDateAt (cs : List Char) : Option (List Char) :=
  match stripLit "Started running on ".data cs with
  | none => none
  | some rest =>
    match rest with
    | d1 :: rest1 =>
      if d1.isDigit then
        match rest1 with
        | d2 :: rest2 =>
          if d2.isDigit then
            (matchDateTail rest2).map (fun t => d1 :: d2 :: t)
          else
            (matchDateTail rest1).map (fun t => d1 :: t)
        | [] => none
      else none
    | [] => none

/-- Leftmost match of the date pattern (JS `String.prototype.match`
without the `g` flag). -/
def searchDate : List Char → Option (List Char)
  | [] => none
  | c :: cs =>
    match matchDateAt (c :: cs) with
    | some cap => some cap
    | none => searchDate cs

/-- Try to match `/Total active time (\d+) hrs/` at the head of the
input, returning the digits of the capture group.  `\d+` is greedy and
the ` hrs` tail cannot start with a digit, so no backtracking occurs. -/
def matchTimeAt (cs : List Char) : Option (List Char) :=
  match stripLit "Total active time ".data cs with
  | none => none
  | some rest =>
    let ds := rest.takeWhile (fun c => c.isDigit)
    if ds.isEmpty then none
    else
      match stripLit " hrs".data (rest.drop ds.length) with
      | some _ => some ds
      | none => none

/-- Leftmost match of the duration pattern. -/
def searchTime : List Char → Option (List Char)
  | [] => none
  | c :: cs =>
    match matchTimeAt (c :: cs) with
    | some ds => some ds
    | none => searchTime cs

/-! ## V8 Date model (UTC runtime) -/

/-- Month number of a three-letter month abbreviation (V8 matches month
names case-insensitively). -/
def monthOfAbbrev (a b c : Char) : Option Nat :=
  match a.toLower, b.toLower, c.toLower with
  | 'j', 'a', 'n' => some 1
  | 'f', 'e', 'b' => some 2
  | 'm', 'a', 'r' => some 3
  | 'a', 'p', 'r' => some 4
  | 'm', 'a', 'y' => some 5
  | 'j', 'u', 'n' => some 6
  | 'j', 'u', 'l' => some 7
  | 'a', 'u', 'g' => some 8
  | 's', 'e', 'p' => some 9
  | 'o', 'c', 't' => some 10
  | 'n', 'o', 'v' => some 11
  | 'd', 'e', 'c' => some 12
  | _, _, _ => none

def isLeapYear (y : Nat) : Bool :=
  (y % 4 = 0 && y % 100 ≠ 0) || y % 400 = 0

def daysInMonth (y m : Nat) : Nat :=
  if m = 2 then (if isLeapYear y then 29 else 28)
  else if m = 4 || m = 6 || m = 9 || m = 11 then 30
  else 31

/-- V8's `MakeDay` overflow for string-parsed dates: a lexically valid
day (1–31) beyond the month's length rolls into the next month.  Only
months with fewer than 31 days can overflow, so at most one carry. -/
def normalizeDay (y m d : Nat) : Nat × Nat × Nat :=
  if d ≤ daysInMonth y m then (y, m, d) else (y, m + 1, d - daysInMonth y m)

/-- Model of `new Date(cap)` followed by the `isNaN(d.getTime())`
validity test, for the capture shapes `d MMM yyyy` and `dd MMM yyyy`
produced by the regular expression: `none` is an Invalid Date, `some`
gives the UTC calendar-date components that `toISOString` renders. -/
def jsDateISO (cap : List Char) : Option (Nat × Nat × Nat) :=
  match cap with
  | [d1, d2, ' ', a, b, c, ' ', y1, y2, y3, y4] =>
    match monthOfAbbrev a b c with
    | none => none
    | some m =>
      let day := natOfDigits [d1, d2]
      let year := natOfDigits [y1, y2, y3, y4]
      if 1 ≤ day && day ≤ 31 then some (normalizeDay year m day) else none
  | [d1, ' ', a, b, c, ' ', y1, y2, y3, y4] =>
    match monthOfAbbrev a b c with
    | none => none
    | some m =>
      let day := natOfDigits [d1]
      let year := natOfDigits [y1, y2, y3, y4]
      if 1 ≤ day && day ≤ 31 then some (normalizeDay year m day) else none
  | _ => none

/-- Zero-padded two-digit rendering. -/
def pad2 (n : Nat) : List Char :=
  [Nat.digitChar (n / 10 % 10), Nat.digitChar (n % 10)]

/-- Zero-padded four-digit rendering. -/
def pad4 (n : Nat) : List Char :=
  [Nat.digitChar (n / 1000 % 10), Nat.digitChar (n / 100 % 10),
   Nat.digitChar (n / 10 % 10), Nat.digitChar (n % 10)]

/-- The calendar-date part of `toISOString()`: what
`d.toISOString().split('T')[0]` yields under a UTC runtime. -/
def formatDate (y m d : Nat) : String :=
  String.mk (pad4 y ++ '-' :: pad2 m ++ '-' :: pad2 d)

/-- `toISOString()` itself throws a `RangeError` on an Invalid Date; the
script only reaches it behind the `isNaN` guard. -/
def toISOStringE : Option (Nat × Nat × Nat) → Except String String
  | none => Except.error "RangeError: Invalid time value"
  | some (y, m, d) => Except.ok (formatDate y m d)

/-! ## parseAdDate -/

structure ParsedAdDate where
  ad_date : Option String
  active_time_hr : Option Nat
deriving DecidableEq, Repr

/-- The date extraction of `parseAdDate` (regex match, `new Date`,
`isNaN` guard, `toISOString().split('T')[0]`). -/
def extractDate (s : String) : Option String :=
  match searchDate s.data with
  | none => none
  | some cap =>
    match jsDateISO cap with
    | none => none
    | some (y, m, d) => some (formatDate y m d)

/-- The duration extraction of `parseAdDate` (regex match then
`parseInt(digits, 10)`). -/
def extractTime (s : String) : Option Nat :=
  (searchTime s.data).map natOfDigits

/-- `parseAdDate` of both scripts: `!adDateText` (null, undefined, or the
empty string) short-circuits to `(null, null)`; otherwise the two
extractions run independently. -/
def parseAdDate (adDateText : Option String) : ParsedAdDate :=
  match adDateText with
  | none => { ad_date := none, active_time_hr := none }
  | some s =>
    if s = "" then { ad_date := none, active_time_hr := none }
    else { ad_date := extractDate s, active_time_hr := extractTime s }

/-- The date branch of `parseAdDate` with its try/catch made explicit:
the `catch (e) { ad_date = null }` arm and the `RangeError` surface of
`toISOString` are both visible.  The `isNaN` guard keeps the error arm
unreachable. -/
def extractDateE (s : String) : Except String (Option String) :=
  match searchDate s.data with
  | none => Except.ok none
  | some cap =>
    let d := jsDateISO cap
    let attempt : Except String (Option String) :=
      if d.isSome then (toISOStringE d).map some else Except.ok none
    match attempt with
    | Except.ok v => Except.ok v
    | Except.error _ => Except.ok none

/-- `parseAdDate` with the throwing surface made explicit. -/
def parseAdDateE (adDateText : Option String) : Except String ParsedAdDate :=
  match adDateText with
  | none => Except.ok { ad_date := none, active_time_hr := none }
  | some s =>
    if s = "" then Except.ok { ad_date := none, active_time_hr := none }
    else
      match extractDateE s with
      | Except.error e => Except.error e
      | Except.ok d => Except.ok { ad_date := d, active_time_hr := extractTime s }

/-! ## transformRow -/

/-- One row of the source table `pageseeker_response`.  Text columns are
`Option String` (`none` is SQL NULL / JS `null`). -/
structure SourceRecord where
  id : Int
  keyword : Option String
  ad_id : Option String
  ad_url : Option String
  page_url : Option String
  ad_date : Option String
  ad_name : Option String
  ad_profile_url : Option String
  ad_caption : Option String
  ad_links : Option String
  image_urls : Option String
  video_urls : Option String
  collected_at : Option String
  ad_risk_level : Option String
  ad_risk_reason : Option String
  request_id : Option String
deriving DecidableEq, Repr

/-- One row of the destination table `pageseeker_response_opensearch`. -/
structure DestinationRecord where
  id : Int
  keyword : Option String
  ad_id : Option Int
  ad_url : Option String
  page_url : Option String
  ad_date : Option String
  active_time_hr : Option Nat
  ad_name : Option String
  ad_profile_url : Option String
  ad_caption : Option String
  ad_links : Option String
  image_urls : Option String
  video_urls : Option String
  collected_at : Option String
  ad_risk_level : Option Int
  ad_risk_reason : Option String
  request_id : Option Int
  opensearch_sync : Bool
deriving DecidableEq, Repr

/-- JS `row.f || null` on a text column: the empty string is falsy. -/
def jsOrNull (v : Option String) : Option String :=
  match v with
  | none => none
  | some s => if s = "" then none else some s

/-- JS `row.f ? parseInt(row.f, 10) || null : null` on a numeric-as-text
column: an absent or empty value is falsy; a `NaN` parse is falsy; note
that a parsed `0` is falsy too and is therefore coerced to `null`. -/
def jsIntField (v : Option String) : Option Int :=
  match v with
  | none => none
  | some s =>
    if s = "" then none
    else
      match jsParseInt s with
      | none => none
      | some n => if n = 0 then none else some n

/-- `transformRow` of both scripts. -/
def transformRow (row : SourceRecord) : DestinationRecord :=
  let p := parseAdDate row.ad_date
  { id := row.id
    keyword := jsOrNull row.keyword
    ad_id := jsIntField row.ad_id
    ad_url := jsOrNull row.ad_url
    page_url := jsOrNull row.page_url
    ad_date := p.ad_date
    active_time_hr := p.active_time_hr
    ad_name := jsOrNull row.ad_name
    ad_profile_url := jsOrNull row.ad_profile_url
    ad_caption := jsOrNull row.ad_caption
    ad_links := jsOrNull row.ad_links
    image_urls := jsOrNull row.image_urls
    video_urls := jsOrNull row.video_urls
    collected_at := jsOrNull row.collected_at
    ad_risk_level := jsIntField row.ad_risk_level
    ad_risk_reason := jsOrNull row.ad_risk_reason
    request_id := jsIntField row.request_id
    opensearch_sync := false }

/-- `transformRow` with the throwing surface of its only fallible
sub-call (`parseAdDate`) made explicit. -/
def transformRowE (row : SourceRecord) : Except String DestinationRecord :=
  match parseAdDateE row.ad_date with
  | Except.error e => Except.error e
  | Except.ok p =>
    Except.ok
      { id := row.id
        keyword := jsOrNull row.keyword
        ad_id := jsIntField row.ad_id
        ad_url := jsOrNull row.ad_url
        page_url := jsOrNull row.page_url
        ad_date := p.ad_date
        active_time_hr := p.active_time_hr
        ad_name := jsOrNull row.ad_name
        ad_profile_url := jsOrNull row.ad_profile_url
        ad_caption := jsOrNull row.ad_caption
        ad_links := jsOrNull row.ad_links
        image_urls := jsOrNull row.image_urls
        video_urls := jsOrNull row.video_urls
        collected_at := jsOrNull row.collected_at
        ad_risk_level := jsIntField row.ad_risk_level
        ad_risk_reason := jsOrNull row.ad_risk_reason
        request_id := jsIntField row.request_id
        opensearch_sync := false }

/-! ## Configuration constants -/

def BATCH_SIZE : Nat := 1000
def MAX_RETRIES : Nat := 3
def RETRY_DELAY : Nat := 1000

/-! ## Destination table model

The remote table `pageseeker_response_opensearch` is a list of records;
`upsert(..., { onConflict: 'id' })` replaces the rows whose `id` matches
and appends the rest. -/

abbrev Db := List DestinationRecord

def dbHas (db : Db) (i : Int) : Bool :=
  db.any (fun d => d.id == i)

def dbFind (db : Db) (i : Int) : Option DestinationRecord :=
  db.find? (fun d => d.id == i)

/-- Upsert of a single record under conflict key `id`. -/
def dbUpsert (db : Db) (r : DestinationRecord) : Db :=
  if dbHas db r.id then db.map (fun d => if d.id == r.id then r else d)
  else db ++ [r]

/-- Bulk upsert of a batch, row by row in batch order. -/
def dbUpsertBatch (db : Db) (rs : List DestinationRecord) : Db :=
  rs.foldl dbUpsert db

/-- The existence query `select('id').in('id', ids)` against the
destination: the ids of the destination rows whose id is in `ids`. -/
def dbCheck (db : Db) (ids : List Int) : List Int :=
  (db.filter (fun d => ids.contains d.id)).map (fun d => d.id)

/-! ## Batch fetchers -/

/-- The fetch of `migrate_records.js` (lines 105–110): always filters
`.gt('id', lastId)`, orders ascending, limits to `BATCH_SIZE`.  `src` is
the source table listed in ascending id order (the `order('id')` result). -/
def fetchU (src : List SourceRecord) (lastId : Int) : List SourceRecord :=
  (src.filter (fun r => decide (lastId < r.id))).take BATCH_SIZE

/-- The fetch of `part_000` (lines 143–154): the `.gt('id', lastId)`
clause is added only when `lastId > 0`, so the first page is unfiltered. -/
def fetchPF (src : List SourceRecord) (lastId : Int) : List SourceRecord :=
  if 0 < lastId then (src.filter (fun r => decide (lastId < r.id))).take BATCH_SIZE
  else src.take BATCH_SIZE

/-- `rows[rows.length - 1].id`, with the previous cursor kept when the
page is empty (the scripts only evaluate it on non-empty pages). -/
def lastRowId (rows : List SourceRecord) (prev : Int) : Int :=
  match rows.getLast? with
  | some r => r.id
  | none => prev

/-! ## The upsert-overwrite loop (migrate_records.js), error-free path -/

structure RunStateU where
  lastId : Int
  db : Db
  totalProcessed : Nat
  totalUpserted : Nat
  totalErrors : Nat
deriving DecidableEq, Repr

/-- One `while (true)` pass of `migrate_records.js` (lines 103–155) with
every fetch and upsert succeeding, as a fuel-indexed recursion. -/
def runUAux (src : List SourceRecord) : Nat → RunStateU → RunStateU
  | 0, st => st
  | fuel + 1, st =>
    let rows := fetchU src st.lastId
    if rows.isEmpty then st
    else
      let transformed := rows.map transformRow
      runUAux src fuel
        { lastId := lastRowId rows st.lastId
          db := dbUpsertBatch st.db transformed
          totalProcessed := st.totalProcessed + rows.length
          totalUpserted := st.totalUpserted + transformed.length
          totalErrors := st.totalErrors }

/-- A full error-free run of `migrate_records.js` from a fresh cursor.
`src.length + 1` iterations always suffice: every non-final page consumes
at least one source row. -/
def runU (src : List SourceRecord) (db0 : Db) : RunStateU :=
  runUAux src (src.length + 1)
    { lastId := 0, db := db0, totalProcessed := 0, totalUpserted := 0, totalErrors := 0 }

def runUDb (src : List SourceRecord) (db0 : Db) : Db :=
  (runU src db0).db

/-! ## The pre-filter loop (part_000), error-free path -/

/-- Lines 179–211 of part_000: `transformed.filter(record =>
!existingIds.has(record.id))`, where `existingIds` is built from the
existence query's `data` with `existingRecords?.map(r => r.id) || []`. -/
def newRecordsOf (checkData : Option (List Int)) (rows : List SourceRecord) :
    List DestinationRecord :=
  let transformed := rows.map transformRow
  let existingIds := checkData.getD []
  transformed.filter (fun r => !(existingIds.contains r.id))

/-- Lines 208–238 of part_000 after a successful existence query: skip
the batch when nothing is new, otherwise upsert only the new records.
Returns the new table and the number of records written. -/
def pfBatch (db : Db) (rows : List SourceRecord) (checkData : Option (List Int)) :
    Db × Nat :=
  let newRecords := newRecordsOf checkData rows
  if newRecords.isEmpty then (db, 0)
  else (dbUpsertBatch db newRecords, newRecords.length)

structure RunStatePF where
  lastId : Int
  db : Db
  totalProcessed : Nat
  totalUpserted : Nat
  totalErrors : Nat
deriving DecidableEq, Repr

/-- One `while (true)` pass of part_000 (lines 140–251) with every query
succeeding and the existence check returning the true destination ids. -/
def runPFAux (src : List SourceRecord) : Nat → RunStatePF → RunStatePF
  | 0, st => st
  | fuel + 1, st =>
    let rows := fetchPF src st.lastId
    if rows.isEmpty then st
    else
      let p := pfBatch st.db rows (some (dbCheck st.db (rows.map (fun r => r.id))))
      runPFAux src fuel
        { lastId := lastRowId rows st.lastId
          db := p.1
          totalProcessed := st.totalProcessed + rows.length
          totalUpserted := st.totalUpserted + p.2
          totalErrors := st.totalErrors }

/-- A full error-free run of part_000 from a fresh cursor. -/
def runPF (src : List SourceRecord) (db0 : Db) : RunStatePF :=
  runPFAux src (src.length + 1)
    { lastId := 0, db := db0, totalProcessed := 0, totalUpserted := 0, totalErrors := 0 }

/-! ## Chunk-level view of the two loops

`chunkFoldU`/`chunkFoldPF` process the not-yet-visited suffix of the
source page by page; the cursor-based loops are proved equal to them for
a strictly id-sorted source. -/

def chunkFoldU (l : List SourceRecord) (db : Db) : Db :=
  if h : l = [] then db
  else
    chunkFoldU (l.drop BATCH_SIZE)
      (dbUpsertBatch db ((l.take BATCH_SIZE).map transformRow))
termination_by l.length
decreasing_by
  have hpos : 0 < l.length := List.length_pos.mpr h
  simp only [List.length_drop, BATCH_SIZE]
  omega

def chunkFoldPF (l : List SourceRecord) (db : Db) : Db × Nat :=
  if h : l = [] then (db, 0)
  else
    let rows := l.take BATCH_SIZE
    let p := pfBatch db rows (some (dbCheck db (rows.map (fun r => r.id))))
    let q := chunkFoldPF (l.drop BATCH_SIZE) p.1
    (q.1, p.2 + q.2)
termination_by l.length
decreasing_by
  have hpos : 0 < l.length := List.length_pos.mpr h
  simp only [List.length_drop, BATCH_SIZE]
  omega

/-! ## upsertWithRetry (part_000, lines 25–52) -/

/-- Result of one awaited upsert attempt: resolved cleanly, resolved with
an error payload, or rejected (the await threw). -/
inductive UpsertAttempt where
  | ok
  | errorResult
  | raised
deriving DecidableEq, Repr

structure RetryOutcome where
  success : Bool
  attempts : Nat
  delays : List Nat
deriving DecidableEq, Repr

/-- The `for (attempt = 1; attempt <= maxRetries; attempt++)` body.  An
error payload on a non-final attempt sleeps `RETRY_DELAY` and continues;
on the final attempt it is thrown, caught by the surrounding catch, and
returned as `{ success: false }`.  A rejection behaves the same way via
the catch.  `delays` records every sleep taken before a re-attempt. -/
def upsertWithRetryGo (oracle : Nat → UpsertAttempt) (maxRetries : Nat) :
    Nat → Nat → List Nat → RetryOutcome
  | 0, attempt, delays => { success := false, attempts := attempt - 1, delays := delays }
  | rem + 1, attempt, delays =>
    match oracle attempt with
    | UpsertAttempt.ok => { success := true, attempts := attempt, delays := delays }
    | UpsertAttempt.errorResult =>
      if attempt < maxRetries then
        upsertWithRetryGo oracle maxRetries rem (attempt + 1) (delays ++ [RETRY_DELAY])
      else { success := false, attempts := attempt, delays := delays }
    | UpsertAttempt.raised =>
      if attempt = maxRetries then { success := false, attempts := attempt, delays := delays }
      else upsertWithRetryGo oracle maxRetries rem (attempt + 1) (delays ++ [RETRY_DELAY])

/-- `upsertWithRetry(data, maxRetries)`; the attempt oracle gives the
outcome of each awaited write. -/
def upsertWithRetry (oracle : Nat → UpsertAttempt) (maxRetries : Nat) : RetryOutcome :=
  upsertWithRetryGo oracle maxRetries maxRetries 1 []

/-! ## The existence-check error surface of part_000 (lines 185–206) -/

/-- How the awaited existence query can end: the promise resolves (data,
possibly alongside an error payload — supabase clients resolve errors,
yielding `data: null`), or it rejects (throws). -/
inductive QueryOutcome where
  | resolved (data : Option (List Int)) (errorPayload : Bool)
  | thrown (connectionError : Bool)
deriving DecidableEq, Repr

inductive CheckStep where
  | proceed (data : Option (List Int))
  | retryBatch
  | exitProcess
deriving DecidableEq, Repr

/-- The try/catch around the existence query: only a THROWN error reaches
the catch (connection errors sleep and retry the batch, others exit).  A
promise that resolves with an error payload takes the normal path with
`existingRecords = result.data`. -/
def existenceCheck : QueryOutcome → CheckStep
  | QueryOutcome.resolved data _ => CheckStep.proceed data
  | QueryOutcome.thrown conn =>
    if conn then CheckStep.retryBatch else CheckStep.exitProcess

/-! ## One full loop iteration of part_000 after the fetch -/

inductive LoopStep where
  | halt (exitCode : Nat) (st : RunStatePF)
  | finished (st : RunStatePF)
  | next (st : RunStatePF)
deriving DecidableEq, Repr

/-- Lines 173–251 of part_000 for one fetched page `rows`, with the
existence result `checkData` and the upsert attempt oracle given.  A
failed `upsertWithRetry` only increments `totalErrors`; the iteration
still advances the cursor and continues. -/
def pfIter (st : RunStatePF) (rows : List SourceRecord)
    (checkData : Option (List Int)) (oracle : Nat → UpsertAttempt) : LoopStep :=
  if rows.isEmpty then LoopStep.finished st
  else
    let newRecords := newRecordsOf checkData rows
    if newRecords.isEmpty then
      LoopStep.next
        { st with lastId := lastRowId rows st.lastId
                  totalProcessed := st.totalProcessed + rows.length }
    else
      let retryResult := upsertWithRetry oracle MAX_RETRIES
      let st1 :=
        if retryResult.success then
          { st with db := dbUpsertBatch st.db newRecords
                    totalUpserted := st.totalUpserted + newRecords.length }
        else { st with totalErrors := st.totalErrors + 1 }
      LoopStep.next
        { st1 with lastId := lastRowId rows st.lastId
                   totalProcessed := st1.totalProcessed + rows.length }

/-! ## The fetch-error path of migrate_records.js (lines 112–122, 179–182) -/

inductive FetchResult where
  | failure
  | page (rs : List SourceRecord)
deriving DecidableEq, Repr

/-- Lines 112–121: `totalErrors++; lastId += BATCH_SIZE`. -/
def fetchFailStep (st : RunStateU) : RunStateU :=
  { st with totalErrors := st.totalErrors + 1, lastId := st.lastId + (BATCH_SIZE : Int) }

/-- The `while (true)` loop of `migrate_records.js` with the fetch
outcome of each call (numbered from 1) given by an oracle.  Returns the
final state and the number of the last fetch call performed. -/
def runUFault (oracle : Nat → FetchResult) : Nat → Nat → RunStateU → RunStateU × Nat
  | 0, callIdx, st => (st, callIdx - 1)
  | fuel + 1, callIdx, st =>
    match oracle callIdx with
    | FetchResult.failure =>
      let st1 := fetchFailStep st
      if st1.totalErrors > 10 then (st1, callIdx)
      else runUFault oracle fuel (callIdx + 1) st1
    | FetchResult.page rs =>
      if rs.isEmpty then (st, callIdx)
      else
        let transformed := rs.map transformRow
        runUFault oracle fuel (callIdx + 1)
          { st with lastId := lastRowId rs st.lastId
                    db := dbUpsertBatch st.db transformed
                    totalProcessed := st.totalProcessed + rs.length
                    totalUpserted := st.totalUpserted + transformed.length }

/-- The run plus the exit-code decision of lines 179–185: any recorded
error makes the process exit non-zero. -/
def runUFaultMain (oracle : Nat → FetchResult) (fuel : Nat) (db0 : Db) :
    (RunStateU × Nat) × Nat :=
  let r := runUFault oracle fuel 1
    { lastId := 0, db := db0, totalProcessed := 0, totalUpserted := 0, totalErrors := 0 }
  (r, if r.1.totalErrors > 0 then 1 else 0)

/-! ## Spec-side characterisations and concrete fixtures -/

/-- Amended coercion contract for a numeric-as-text field: the value is
the parsed base-10 integer when that parse yields a valid NONZERO
integer, and null when the field is absent, empty, unparsable, or parses
to 0 (the `|| null` falsy coercion sends a parsed 0 to null). -/
def intFieldSpec (src : Option String) (dst : Option Int) : Prop :=
  (dst = none ∧
    (src = none ∨ src = some "" ∨
      (∃ s, src = some s ∧ (jsParseInt s = none ∨ jsParseInt s = some 0))))
  ∨ (∃ s n, src = some s ∧ jsParseInt s = some n ∧ n ≠ 0 ∧ dst = some n)

/-- A source row with every text column NULL. -/
def blankSource (i : Int) : SourceRecord :=
  { id := i, keyword := none, ad_id := none, ad_url := none, page_url := none
    ad_date := none, ad_name := none, ad_profile_url := none, ad_caption := none
    ad_links := none, image_urls := none, video_urls := none, collected_at := none
    ad_risk_level := none, ad_risk_reason := none, request_id := none }

/-- A source row whose `ad_id` column holds the text "0". -/
def rowAdIdZero : SourceRecord :=
  { blankSource 1 with ad_id := some "0" }

/-- A source row with the nonpositive id 0. -/
def rowNonPos : SourceRecord := blankSource 0

/-- Membership of an id in the destination table, as a proposition. -/
def dbHasP (db : Db) (i : Int) : Prop := ∃ d ∈ db, d.id = i

def srcOne : List SourceRecord := [blankSource 1]

def srcTwo : List SourceRecord := [blankSource 1, blankSource 2]

/-- An upsert-attempt oracle whose every attempt resolves with an error
payload. -/
def alwaysErr : Nat → UpsertAttempt := fun _ => UpsertAttempt.errorResult

/-- A fetch oracle whose every call fails. -/
def alwaysFail : Nat → FetchResult := fun _ => FetchResult.failure

def stPF0 : RunStatePF :=
  { lastId := 0, db := [], totalProcessed := 0, totalUpserted := 0, totalErrors := 0 }

/-- A destination row for id 1 whose sync flag is already cleared by a
previous indexing pass (true = indexed). -/
def destOneStale : DestinationRecord :=
  { transformRow (blankSource 1) with opensearch_sync := true }

def dbStale : Db := [destOneStale]

/-- A source row with an unparsable `ad_id` and a malformed date token. -/
def rowBad : SourceRecord :=
  { blankSource 2 with
      ad_id := some "abc", ad_date := some "Started running on 35 Foo 2023" }

/-! # Theorems -/

/-! ## Helper lemmas: digits and date rendering -/

theorem digitChar_mod_isDigit (n : Nat) : (Nat.digitChar (n % 10)).isDigit = true := by
  have hall : ∀ k : Fin 10, (Nat.digitChar k.val).isDigit = true := by decide
  exact hall ⟨n % 10, Nat.mod_lt _ (by omega)⟩

theorem formatDate_length (y m d : Nat) : (formatDate y m d).length = 10 := rfl

theorem formatDate_chars (y m d : Nat) :
    ∀ c ∈ (formatDate y m d).data, c.isDigit = true ∨ c = '-' := by
  intro c hc
  simp only [formatDate, pad4, pad2, String.data, List.cons_append, List.nil_append,
    List.mem_cons, List.not_mem_nil, or_false] at hc
  rcases hc with h | h | h | h | h | h | h | h | h | h <;> subst h
  all_goals first
    | exact Or.inl (digitChar_mod_isDigit _)
    | exact Or.inr rfl

/-- Normal form of the date extraction. -/
theorem extractDate_eq (s : String) :
    extractDate s = (searchDate s.data).bind (fun cap =>
      (jsDateISO cap).map (fun p => formatDate p.1 p.2.1 p.2.2)) := by
  unfold extractDate
  split
  · rename_i hsd
    rw [hsd]
    rfl
  · rename_i cap hsd
    rw [hsd]
    split
    · rename_i hj
      simp [hj]
    · rename_i y m dd hj
      simp [hj]

/-- Every non-null date produced by the date extraction is a rendered
calendar date. -/
theorem extractDate_shape (s : String) (d : String) (h : extractDate s = some d) :
    ∃ y m dd, d = formatDate y m dd := by
  rw [extractDate_eq] at h
  rcases hsd : searchDate s.data with _ | cap <;> rw [hsd] at h
  · simp at h
  · simp only [Option.some_bind] at h
    rcases hj : jsDateISO cap with _ | ⟨y, m, dd⟩ <;> rw [hj] at h
    · simp at h
    · simp only [Option.map_some'] at h
      exact ⟨y, m, dd, (Option.some.inj h).symm⟩

/-- `parseAdDate` decomposes into the two independent extractions. -/
theorem parseAdDate_decompose (s : String) :
    parseAdDate (some s)
      = { ad_date := extractDate s, active_time_hr := extractTime s } := by
  by_cases hs : s = ""
  · subst hs; decide
  · simp [parseAdDate, hs]

/-- C1: the spec's vectors for `parseAdDate` hold: null input gives
`(null, null)`; "Started running on 5 Jan 2023" gives "2023-01-05" with a
null duration; "Total active time 48 hrs" gives a null date with 48; the
combined string gives both; a malformed date token ("35 Foo 2023") gives
a null date without raising; the two extractions are independent (the
result is always the pair of the two separate extractions); and every
non-null returned date is a 10-character calendar-date-only string of
digits and dashes (no time-of-day, no timezone component). -/
theorem C1_parseAdDate_vectors :
    parseAdDate none = { ad_date := none, active_time_hr := none }
    ∧ parseAdDate (some "Started running on 5 Jan 2023")
        = { ad_date := some "2023-01-05", active_time_hr := none }
    ∧ parseAdDate (some "Total active time 48 hrs")
        = { ad_date := none, active_time_hr := some 48 }
    ∧ parseAdDate (some "Started running on 5 Jan 2023. Total active time 48 hrs.")
        = { ad_date := some "2023-01-05", active_time_hr := some 48 }
    ∧ parseAdDate (some "Started running on 35 Foo 2023")
        = { ad_date := none, active_time_hr := none }
    ∧ (∀ s : String, parseAdDate (some s)
        = { ad_date := extractDate s, active_time_hr := extractTime s })
    ∧ (∀ (s : Option String) (d : String), (parseAdDate s).ad_date = some d →
        d.length = 10 ∧ ∀ c ∈ d.data, c.isDigit = true ∨ c = '-') := by
  refine ⟨by decide, by decide, by decide, by decide, by decide,
    parseAdDate_decompose, ?_⟩
  intro s d h
  rcases s with _ | s
  · exact absurd h (by simp [parseAdDate])
  · rw [parseAdDate_decompose] at h
    obtain ⟨y, m, dd, rfl⟩ := extractDate_shape s d h
    exact ⟨formatDate_length y m dd, formatDate_chars y m dd⟩

/-- Witness for C1 at the concrete spec vector. -/
theorem C1_parseAdDate_vectors_witness :
    (parseAdDate (some "Started running on 5 Jan 2023")).ad_date = some "2023-01-05"
    ∧ "2023-01-05".length = 10
    ∧ (∀ c ∈ "2023-01-05".data, c.isDigit = true ∨ c = '-') := by
  have h := C1_parseAdDate_vectors
  have hfmt := h.2.2.2.2.2.2 (some "Started running on 5 Jan 2023") "2023-01-05" (by decide)
  exact ⟨by decide, hfmt.1, hfmt.2⟩

/-! ## C2: numeric-as-text coercion -/

/-- The coercion of `jsIntField` satisfies the amended contract. -/
theorem jsIntField_spec (v : Option String) : intFieldSpec v (jsIntField v) := by
  rcases v with _ | s
  · exact Or.inl ⟨rfl, Or.inl rfl⟩
  · by_cases hse : s = ""
    · subst hse; exact Or.inl ⟨rfl, Or.inr (Or.inl rfl)⟩
    · rcases hp : jsParseInt s with _ | n
      · exact Or.inl ⟨by simp [jsIntField, hse, hp],
          Or.inr (Or.inr ⟨s, rfl, Or.inl hp⟩)⟩
      · by_cases hn : n = 0
        · subst hn
          exact Or.inl ⟨by simp [jsIntField, hse, hp],
            Or.inr (Or.inr ⟨s, rfl, Or.inr hp⟩)⟩
        · exact Or.inr ⟨s, n, rfl, hp, hn, by simp [jsIntField, hse, hp, hn]⟩

/-- C2 counterexample: the text "0" parses to the valid integer 0, but
`transformRow` maps the field to null, not to 0 — the claim's clause
"including the text \"0\", which must map to the integer 0" fails. -/
theorem C2_zero_counterexample :
    jsParseInt "0" = some 0
    ∧ rowAdIdZero.ad_id = some "0"
    ∧ (transformRow rowAdIdZero).ad_id = none := by decide

/-- C2 (amended): each numeric-as-text field maps to its parsed base-10
integer when the parse yields a valid NONZERO integer, and to null when
the field is absent, empty, unparsable, or parses to 0 (the `|| null`
coercion sends a parsed 0 to null); a NaN parse always resolves to null,
never to a sentinel. -/
theorem C2_intFields_amended (row : SourceRecord) :
    intFieldSpec row.ad_id (transformRow row).ad_id
    ∧ intFieldSpec row.ad_risk_level (transformRow row).ad_risk_level
    ∧ intFieldSpec row.request_id (transformRow row).request_id :=
  ⟨jsIntField_spec row.ad_id, jsIntField_spec row.ad_risk_level,
    jsIntField_spec row.request_id⟩

/-! ## C3: opensearch_sync -/

/-- C3: every destination record produced by `transformRow` has
`opensearch_sync = false`, unconditionally, for every source record on
every transform. -/
theorem C3_opensearch_sync_false (row : SourceRecord) :
    (transformRow row).opensearch_sync = false := rfl

/-! ## C4: totality of transformRow -/

theorem extractDateE_ok (s : String) : extractDateE s = Except.ok (extractDate s) := by
  rw [extractDate_eq]
  unfold extractDateE
  split
  · rename_i hsd
    rw [hsd]
    rfl
  · rename_i cap hsd
    rw [hsd]
    rcases hj : jsDateISO cap with _ | ⟨y, m, dd⟩
    · simp [hj, toISOStringE]
    · simp [hj, toISOStringE, Except.map]

theorem parseAdDateE_ok (v : Option String) :
    parseAdDateE v = Except.ok (parseAdDate v) := by
  rcases v with _ | s
  · rfl
  · by_cases hs : s = ""
    · subst hs; rfl
    · simp [parseAdDateE, parseAdDate, hs, extractDateE_ok]

/-- C4: `transformRow` is total on every `SourceRecord`: the embedding of
its throwing surface always returns `ok` with exactly the record
`transformRow` computes, and every parsing failure degrades to a null
field (NaN integer parses and failed or invalid date extractions). -/
theorem C4_transformRow_total (row : SourceRecord) :
    transformRowE row = Except.ok (transformRow row)
    ∧ (∀ s, row.ad_id = some s → jsParseInt s = none →
        (transformRow row).ad_id = none)
    ∧ (∀ s, row.ad_risk_level = some s → jsParseInt s = none →
        (transformRow row).ad_risk_level = none)
    ∧ (∀ s, row.request_id = some s → jsParseInt s = none →
        (transformRow row).request_id = none)
    ∧ (∀ s, row.ad_date = some s → searchDate s.data = none →
        (transformRow row).ad_date = none)
    ∧ (∀ s cap, row.ad_date = some s → searchDate s.data = some cap →
        jsDateISO cap = none → (transformRow row).ad_date = none) := by
  refine ⟨?_, ?_, ?_, ?_, ?_, ?_⟩
  · show transformRowE row = Except.ok (transformRow row)
    unfold transformRowE transformRow
    rw [parseAdDateE_ok]
  · intro s hs hp
    show jsIntField row.ad_id = none
    rw [hs]; unfold jsIntField
    by_cases hse : s = "" <;> simp [hse, hp]
  · intro s hs hp
    show jsIntField row.ad_risk_level = none
    rw [hs]; unfold jsIntField
    by_cases hse : s = "" <;> simp [hse, hp]
  · intro s hs hp
    show jsIntField row.request_id = none
    rw [hs]; unfold jsIntField
    by_cases hse : s = "" <;> simp [hse, hp]
  · intro s hs hsd
    show (parseAdDate row.ad_date).ad_date = none
    rw [hs, parseAdDate_decompose]
    show extractDate s = none
    rw [extractDate_eq, hsd]; rfl
  · intro s cap hs hsd hj
    show (parseAdDate row.ad_date).ad_date = none
    rw [hs, parseAdDate_decompose]
    show extractDate s = none
    rw [extractDate_eq, hsd]
    simp [hj]

/-- Witness for C4 at a concrete row with an unparsable `ad_id` and a
malformed date token. -/
theorem C4_transformRow_total_witness :
    transformRowE rowBad = Except.ok (transformRow rowBad)
    ∧ (transformRow rowBad).ad_id = none
    ∧ (transformRow rowBad).ad_date = none := by
  have h := C4_transformRow_total rowBad
  refine ⟨h.1, h.2.1 "abc" rfl (by decide), ?_⟩
  exact h.2.2.2.2.2 "Started running on 35 Foo 2023" ("35 Foo 2023".data) rfl
    (by decide) (by decide)

/-! ## Destination-table lemmas -/

theorem transformRow_id (r : SourceRecord) : (transformRow r).id = r.id := rfl

theorem dbHas_iff (db : Db) (i : Int) : dbHas db i = true ↔ dbHasP db i := by
  simp [dbHas, dbHasP, List.any_eq_true, beq_iff_eq]

theorem dbHas_eq_false (db : Db) (i : Int) : dbHas db i = false ↔ ¬ dbHasP db i := by
  rw [← dbHas_iff]
  cases dbHas db i <;> simp

theorem dbUpsert_mem_self (db : Db) (r : DestinationRecord) : r ∈ dbUpsert db r := by
  unfold dbUpsert
  by_cases h : dbHas db r.id = true
  · rw [if_pos h]
    obtain ⟨d, hd, hdi⟩ := (dbHas_iff db r.id).mp h
    exact List.mem_map.mpr ⟨d, hd, by simp [hdi]⟩
  · rw [if_neg h]
    simp

theorem dbUpsert_mem_of_ne (db : Db) (r d : DestinationRecord) (hd : d ∈ db)
    (hne : d.id ≠ r.id) : d ∈ dbUpsert db r := by
  unfold dbUpsert
  by_cases h : dbHas db r.id = true
  · rw [if_pos h]
    refine List.mem_map.mpr ⟨d, hd, ?_⟩
    simp [hne]
  · rw [if_neg h]
    exact List.mem_append.mpr (Or.inl hd)

theorem dbUpsert_mem_elim (db : Db) (r d : DestinationRecord)
    (hd : d ∈ dbUpsert db r) : d ∈ db ∨ d = r := by
  unfold dbUpsert at hd
  by_cases h : dbHas db r.id = true
  · rw [if_pos h] at hd
    obtain ⟨a, ha, hae⟩ := List.mem_map.mp hd
    by_cases hc : (a.id == r.id) = true
    · rw [if_pos hc] at hae
      exact Or.inr hae.symm
    · rw [if_neg hc] at hae
      exact Or.inl (hae ▸ ha)
  · rw [if_neg h] at hd
    rcases List.mem_append.mp hd with h1 | h1
    · exact Or.inl h1
    · exact Or.inr (List.mem_singleton.mp h1)

theorem dbUpsert_ids (db : Db) (r : DestinationRecord) :
    (dbUpsert db r).map (fun d => d.id)
      = if dbHas db r.id then db.map (fun d => d.id)
        else db.map (fun d => d.id) ++ [r.id] := by
  unfold dbUpsert
  by_cases h : dbHas db r.id = true
  · rw [if_pos h, if_pos h, List.map_map]
    apply List.map_congr_left
    intro a _
    by_cases hc : a.id = r.id
    · simp [Function.comp, hc]
    · simp [Function.comp, hc]
  · rw [if_neg h, if_neg h]
    simp

theorem dbUpsert_nodup (db : Db) (r : DestinationRecord)
    (h : (db.map (fun d => d.id)).Nodup) :
    ((dbUpsert db r).map (fun d => d.id)).Nodup := by
  rw [dbUpsert_ids]
  by_cases hh : dbHas db r.id = true
  · rw [if_pos hh]; exact h
  · rw [if_neg hh, List.nodup_append]
    refine ⟨h, List.nodup_singleton _, ?_⟩
    intro a ha hb
    rw [List.mem_singleton] at hb
    subst hb
    obtain ⟨d, hd, hdi⟩ := List.mem_map.mp ha
    have hf : dbHas db r.id = false := Bool.eq_false_iff.mpr hh
    exact (dbHas_eq_false db r.id).mp hf ⟨d, hd, hdi⟩

theorem dbFind_eq_none (db : Db) (i : Int) (h : dbHas db i = false) :
    dbFind db i = none := by
  rw [dbFind, List.find?_eq_none]
  intro x hx hbx
  rw [beq_iff_eq] at hbx
  exact (dbHas_eq_false db i).mp h ⟨x, hx, hbx⟩

theorem find_replace_self (db : Db) (r : DestinationRecord) :
    (db.map (fun d => if d.id == r.id then r else d)).find? (fun d => d.id == r.id)
      = if dbHas db r.id then some r else none := by
  induction db with
  | nil => simp [dbHas]
  | cons d db ih =>
    by_cases hc : (d.id == r.id) = true
    · have hh : dbHas (d :: db) r.id = true := by simp [dbHas, List.any_cons, hc]
      rw [List.map_cons, if_pos hc]
      simp only [List.find?_cons, beq_self_eq_true]
      rw [if_pos hh]
    · have hc' : (d.id == r.id) = false := Bool.eq_false_iff.mpr hc
      have hh : dbHas (d :: db) r.id = dbHas db r.id := by
        simp [dbHas, List.any_cons, hc']
      rw [List.map_cons, if_neg hc]
      simp only [List.find?_cons, hc']
      rw [ih, hh]

theorem dbFind_upsert_self (db : Db) (r : DestinationRecord) :
    dbFind (dbUpsert db r) r.id = some r := by
  unfold dbFind dbUpsert
  by_cases h : dbHas db r.id = true
  · rw [if_pos h]
    rw [show (List.find? (fun d => d.id == r.id)
      (db.map (fun d => if d.id == r.id then r else d)))
      = (db.map (fun d => if d.id == r.id then r else d)).find? (fun d => d.id == r.id)
      from rfl, find_replace_self, if_pos h]
  · have hf : dbHas db r.id = false := Bool.eq_false_iff.mpr h
    rw [if_neg h, List.find?_append,
      show List.find? (fun d => d.id == r.id) db = dbFind db r.id from rfl,
      dbFind_eq_none db r.id hf]
    simp

theorem find_replace_ne (db : Db) (r : DestinationRecord) (i : Int) (hne : r.id ≠ i) :
    (db.map (fun d => if d.id == r.id then r else d)).find? (fun d => d.id == i)
      = db.find? (fun d => d.id == i) := by
  induction db with
  | nil => rfl
  | cons d db ih =>
    by_cases hc : (d.id == r.id) = true
    · have h1 : (r.id == i) = false := by simp [hne]
      have h2 : (d.id == i) = false := by
        rw [beq_iff_eq] at hc
        rw [hc]
        exact h1
      rw [List.map_cons, if_pos hc]
      simp only [List.find?_cons, h1, h2]
      exact ih
    · by_cases hd : (d.id == i) = true
      · rw [List.map_cons, if_neg hc]
        simp only [List.find?_cons, hd]
      · have hd' : (d.id == i) = false := Bool.eq_false_iff.mpr hd
        rw [List.map_cons, if_neg hc]
        simp only [List.find?_cons, hd']
        exact ih

theorem dbFind_upsert_ne (db : Db) (r : DestinationRecord) (i : Int) (hne : r.id ≠ i) :
    dbFind (dbUpsert db r) i = dbFind db i := by
  unfold dbFind dbUpsert
  by_cases h : dbHas db r.id = true
  · rw [if_pos h]
    exact find_replace_ne db r i hne
  · rw [if_neg h, List.find?_append]
    have h1 : (r.id == i) = false := by simp [hne]
    simp [h1]

theorem dbUpsertBatch_cons (db : Db) (r : DestinationRecord)
    (rs : List DestinationRecord) :
    dbUpsertBatch db (r :: rs) = dbUpsertBatch (dbUpsert db r) rs := rfl

theorem dbUpsertBatch_mem_of_ne (recs : List DestinationRecord) :
    ∀ (db : Db) (d : DestinationRecord), d ∈ db → (∀ rec ∈ recs, rec.id ≠ d.id) →
      d ∈ dbUpsertBatch db recs := by
  induction recs with
  | nil => intro db d hd _; exact hd
  | cons r rs ih =>
    intro db d hd h
    rw [dbUpsertBatch_cons]
    exact ih _ d
      (dbUpsert_mem_of_ne db r d hd (Ne.symm (h r (List.mem_cons_self r rs))))
      (fun rec hrec => h rec (List.mem_cons_of_mem _ hrec))

theorem dbUpsertBatch_mem_self (recs : List DestinationRecord) :
    ∀ (db : Db) (rec : DestinationRecord), rec ∈ recs →
      ((recs.map (fun d => d.id)).Nodup) → rec ∈ dbUpsertBatch db recs := by
  induction recs with
  | nil => intro db rec h _; cases h
  | cons r rs ih =>
    intro db rec h hnd
    rw [List.map_cons, List.nodup_cons] at hnd
    rw [dbUpsertBatch_cons]
    rcases List.mem_cons.mp h with rfl | hmem
    · apply dbUpsertBatch_mem_of_ne rs _ rec (dbUpsert_mem_self db rec)
      intro rec' hrec' he
      exact hnd.1 (he ▸ List.mem_map_of_mem _ hrec')
    · exact ih _ rec hmem hnd.2

theorem dbUpsertBatch_nodup (recs : List DestinationRecord) :
    ∀ db : Db, (db.map (fun d => d.id)).Nodup →
      ((dbUpsertBatch db recs).map (fun d => d.id)).Nodup := by
  induction recs with
  | nil => intro db h; exact h
  | cons r rs ih => intro db h; exact ih _ (dbUpsert_nodup db r h)

theorem dbUpsertBatch_mem_elim (recs : List DestinationRecord) :
    ∀ (db : Db) (d : DestinationRecord), d ∈ dbUpsertBatch db recs →
      d ∈ db ∨ d ∈ recs := by
  induction recs with
  | nil => intro db d h; exact Or.inl h
  | cons r rs ih =>
    intro db d h
    rcases ih _ d h with h1 | h1
    · rcases dbUpsert_mem_elim db r d h1 with h2 | h2
      · exact Or.inl h2
      · exact Or.inr (by rw [h2]; exact List.mem_cons_self r rs)
    · exact Or.inr (List.mem_cons_of_mem _ h1)

theorem dbUpsert_eq_self (db : Db) (rec : DestinationRecord) (hmem : rec ∈ db)
    (hnd : (db.map (fun d => d.id)).Nodup) : dbUpsert db rec = db := by
  have hhas : dbHas db rec.id = true := (dbHas_iff _ _).mpr ⟨rec, hmem, rfl⟩
  unfold dbUpsert
  rw [if_pos hhas]
  have hmap : ∀ d ∈ db, (if d.id == rec.id then rec else d) = d := by
    intro d hd
    by_cases hc : d.id = rec.id
    · have hde : d = rec := List.inj_on_of_nodup_map hnd hd hmem hc
      subst hde; simp
    · simp [hc]
  rw [List.map_congr_left hmap, List.map_id']

theorem dbUpsertBatch_eq_self (recs : List DestinationRecord) :
    ∀ db : Db, (∀ rec ∈ recs, rec ∈ db) → ((db.map (fun d => d.id)).Nodup) →
      dbUpsertBatch db recs = db := by
  induction recs with
  | nil => intro db _ _; rfl
  | cons r rs ih =>
    intro db h hnd
    rw [dbUpsertBatch_cons, dbUpsert_eq_self db r (h r (List.mem_cons_self r rs)) hnd]
    exact ih db (fun rec hrec => h rec (List.mem_cons_of_mem _ hrec)) hnd

theorem dbFind_upsertBatch_ne (recs : List DestinationRecord) :
    ∀ (db : Db) (i : Int), (∀ rec ∈ recs, rec.id ≠ i) →
      dbFind (dbUpsertBatch db recs) i = dbFind db i := by
  induction recs with
  | nil => intro db i _; rfl
  | cons r rs ih =>
    intro db i h
    rw [dbUpsertBatch_cons, ih _ i (fun rec hrec => h rec (List.mem_cons_of_mem _ hrec)),
      dbFind_upsert_ne db r i (h r (List.mem_cons_self r rs))]

theorem dbFind_upsertBatch_mem (recs : List DestinationRecord) :
    ∀ (db : Db) (rec : DestinationRecord), rec ∈ recs →
      ((recs.map (fun d => d.id)).Nodup) →
      dbFind (dbUpsertBatch db recs) rec.id = some rec := by
  induction recs with
  | nil => intro db rec h _; cases h
  | cons r rs ih =>
    intro db rec h hnd
    rw [List.map_cons, List.nodup_cons] at hnd
    rcases List.mem_cons.mp h with rfl | hmem
    · rw [dbUpsertBatch_cons, dbFind_upsertBatch_ne rs _ rec.id ?_, dbFind_upsert_self]
      intro rec' hrec' he
      exact hnd.1 (he ▸ List.mem_map_of_mem _ hrec')
    · rw [dbUpsertBatch_cons]
      exact ih _ rec hmem hnd.2

theorem dbHasP_upsert (db : Db) (r : DestinationRecord) (i : Int)
    (h : dbHasP db i) : dbHasP (dbUpsert db r) i := by
  obtain ⟨d, hd, hdi⟩ := h
  by_cases hc : d.id = r.id
  · exact ⟨r, dbUpsert_mem_self db r, by rw [← hc, hdi]⟩
  · exact ⟨d, dbUpsert_mem_of_ne db r d hd hc, hdi⟩

theorem dbHasP_upsert_self (db : Db) (r : DestinationRecord) :
    dbHasP (dbUpsert db r) r.id := ⟨r, dbUpsert_mem_self db r, rfl⟩

theorem dbHasP_upsertBatch (recs : List DestinationRecord) :
    ∀ (db : Db) (i : Int), dbHasP db i → dbHasP (dbUpsertBatch db recs) i := by
  induction recs with
  | nil => intro db i h; exact h
  | cons r rs ih => intro db i h; exact ih _ i (dbHasP_upsert db r i h)

theorem dbHasP_upsertBatch_self (recs : List DestinationRecord) :
    ∀ (db : Db) (rec : DestinationRecord), rec ∈ recs →
      dbHasP (dbUpsertBatch db recs) rec.id := by
  induction recs with
  | nil => intro db rec h; cases h
  | cons r rs ih =>
    intro db rec h
    rcases List.mem_cons.mp h with rfl | hmem
    · exact dbHasP_upsertBatch rs _ rec.id (dbHasP_upsert_self db rec)
    · exact ih _ rec hmem

/-! ## Chunk-fold lemmas (upsert-overwrite loop) -/

theorem chunkFoldU_eq (l : List SourceRecord) (db : Db) :
    chunkFoldU l db = if l = [] then db
      else chunkFoldU (l.drop BATCH_SIZE)
        (dbUpsertBatch db ((l.take BATCH_SIZE).map transformRow)) := by
  rw [chunkFoldU]
  split <;> rfl

theorem transformed_ids (l : List SourceRecord) :
    (l.map transformRow).map (fun d => d.id) = l.map (fun r => r.id) := by
  rw [List.map_map]; rfl

theorem ids_nodup_of_sorted (l : List SourceRecord)
    (h : l.Pairwise (fun a b => a.id < b.id)) : (l.map (fun r => r.id)).Nodup := by
  have hp : List.Pairwise (fun a b : Int => a ≠ b) (l.map (fun r => r.id)) := by
    rw [List.pairwise_map]
    exact h.imp (fun hab => ne_of_lt hab)
  exact hp

theorem chunkFoldU_mem_elim (l : List SourceRecord) (db : Db) (d : DestinationRecord)
    (h : d ∈ chunkFoldU l db) : d ∈ db ∨ ∃ r ∈ l, d = transformRow r := by
  induction l, db using chunkFoldU.induct with
  | case1 db =>
    rw [chunkFoldU_eq] at h
    simp at h
    exact Or.inl h
  | case2 l db hne ih =>
    rw [chunkFoldU_eq, if_neg hne] at h
    rcases ih h with h1 | h1
    · rcases dbUpsertBatch_mem_elim _ _ _ h1 with h2 | h2
      · exact Or.inl h2
      · obtain ⟨r, hr, hre⟩ := List.mem_map.mp h2
        exact Or.inr ⟨r, List.mem_of_mem_take hr, hre.symm⟩
    · obtain ⟨r, hr, hre⟩ := h1
      exact Or.inr ⟨r, List.mem_of_mem_drop hr, hre⟩

theorem chunkFoldU_nodup (l : List SourceRecord) (db : Db)
    (h : (db.map (fun d => d.id)).Nodup) :
    ((chunkFoldU l db).map (fun d => d.id)).Nodup := by
  induction l, db using chunkFoldU.induct with
  | case1 db =>
    rw [chunkFoldU_eq]
    simp only [if_pos rfl]
    exact h
  | case2 l db hne ih =>
    rw [chunkFoldU_eq, if_neg hne]
    exact ih (dbUpsertBatch_nodup _ _ h)

theorem chunkFoldU_frame_mem (l : List SourceRecord) (db : Db) (d : DestinationRecord)
    (hd : d ∈ db) (hne : ∀ r ∈ l, r.id ≠ d.id) : d ∈ chunkFoldU l db := by
  induction l, db using chunkFoldU.induct with
  | case1 db =>
    rw [chunkFoldU_eq]
    simp only [if_pos rfl]
    exact hd
  | case2 l db hlne ih =>
    rw [chunkFoldU_eq, if_neg hlne]
    apply ih
    · apply dbUpsertBatch_mem_of_ne _ _ _ hd
      intro rec hrec
      obtain ⟨r, hr, hre⟩ := List.mem_map.mp hrec
      rw [← hre, transformRow_id]
      exact hne r (List.mem_of_mem_take hr)
    · intro r hr
      exact hne r (List.mem_of_mem_drop hr)

theorem chunkFoldU_find_frame (l : List SourceRecord) (db : Db) (i : Int)
    (hne : ∀ r ∈ l, r.id ≠ i) : dbFind (chunkFoldU l db) i = dbFind db i := by
  induction l, db using chunkFoldU.induct with
  | case1 db =>
    rw [chunkFoldU_eq]
    simp
  | case2 l db hlne ih =>
    rw [chunkFoldU_eq, if_neg hlne]
    rw [ih (fun r hr => hne r (List.mem_of_mem_drop hr))]
    apply dbFind_upsertBatch_ne
    intro rec hrec
    obtain ⟨r, hr, hre⟩ := List.mem_map.mp hrec
    rw [← hre, transformRow_id]
    exact hne r (List.mem_of_mem_take hr)

theorem chunkFoldU_establish (l : List SourceRecord) (db : Db)
    (hs : l.Pairwise (fun a b => a.id < b.id)) :
    ∀ r ∈ l, transformRow r ∈ chunkFoldU l db := by
  induction l, db using chunkFoldU.induct with
  | case1 db => intro r hr; cases hr
  | case2 l db hlne ih =>
    intro r hr
    rw [chunkFoldU_eq, if_neg hlne]
    have hsplit := hs
    rw [← List.take_append_drop BATCH_SIZE l, List.pairwise_append] at hsplit
    obtain ⟨hpt, hpd, hcross⟩ := hsplit
    rw [← List.take_append_drop BATCH_SIZE l, List.mem_append] at hr
    rcases hr with hrt | hrd
    · apply chunkFoldU_frame_mem
      · apply dbUpsertBatch_mem_self _ _ _ (List.mem_map_of_mem _ hrt)
        rw [transformed_ids]
        exact ids_nodup_of_sorted _ hpt
      · intro r' hr'
        rw [transformRow_id]
        exact ne_of_gt (hcross r hrt r' hr')
    · exact ih hpd r hrd

theorem chunkFoldU_idempotent (l : List SourceRecord) (db : Db)
    (hnd : (db.map (fun d => d.id)).Nodup)
    (hmem : ∀ r ∈ l, transformRow r ∈ db) : chunkFoldU l db = db := by
  induction l, db using chunkFoldU.induct with
  | case1 db =>
    rw [chunkFoldU_eq]
    simp
  | case2 l db hlne ih =>
    rw [chunkFoldU_eq, if_neg hlne]
    have hbatch : dbUpsertBatch db ((l.take BATCH_SIZE).map transformRow) = db := by
      apply dbUpsertBatch_eq_self _ _ ?_ hnd
      intro rec hrec
      obtain ⟨r, hr, hre⟩ := List.mem_map.mp hrec
      rw [← hre]
      exact hmem r (List.mem_of_mem_take hr)
    have hrec := ih (by rw [hbatch]; exact hnd)
      (by rw [hbatch]; intro r hr; exact hmem r (List.mem_of_mem_drop hr))
    rw [hbatch] at hrec
    rw [hbatch]
    exact hrec

/-! ## Sorted-cursor lemmas -/

theorem sorted_getLast_max (t : List SourceRecord)
    (hp : t.Pairwise (fun a b => a.id < b.id)) (hne : t ≠ []) :
    ∀ a ∈ t, a.id ≤ (t.getLast hne).id := by
  intro a ha
  have hdec := List.dropLast_append_getLast hne
  rw [← hdec, List.pairwise_append] at hp
  rw [← hdec, List.mem_append] at ha
  rcases ha with h | h
  · exact le_of_lt (hp.2.2 a h _ (List.mem_singleton_self _))
  · rw [List.mem_singleton] at h
    rw [h]

theorem sorted_append_filter (t d : List SourceRecord) (m : SourceRecord)
    (hp : (t ++ d).Pairwise (fun a b => a.id < b.id))
    (hmax : ∀ a ∈ t, a.id ≤ m.id) (hm : m ∈ t) :
    (t ++ d).filter (fun r => decide (m.id < r.id)) = d := by
  rw [List.pairwise_append] at hp
  rw [List.filter_append]
  have h1 : t.filter (fun r => decide (m.id < r.id)) = [] := by
    rw [List.filter_eq_nil_iff]
    intro a ha
    simp only [decide_eq_true_eq, not_lt]
    exact hmax a ha
  have h2 : d.filter (fun r => decide (m.id < r.id)) = d := by
    rw [List.filter_eq_self]
    intro b hb
    simp only [decide_eq_true_eq]
    exact lt_of_le_of_lt (hmax m hm) (hp.2.2 m hm b hb)
  rw [h1, h2, List.nil_append]

theorem sorted_filter_after (src : List SourceRecord)
    (hs : src.Pairwise (fun a b => a.id < b.id)) (c : Int) (n : Nat)
    (m : SourceRecord)
    (hm : ((src.filter (fun r => decide (c < r.id))).take n).getLast? = some m) :
    src.filter (fun r => decide (m.id < r.id))
      = (src.filter (fun r => decide (c < r.id))).drop n := by
  have hne : (src.filter (fun r => decide (c < r.id))).take n ≠ [] := by
    intro hnil
    rw [hnil] at hm
    cases hm
  rw [List.getLast?_eq_getLast _ hne] at hm
  have heq := Option.some.inj hm
  have hremsorted : (src.filter (fun r => decide (c < r.id))).Pairwise
      (fun a b => a.id < b.id) :=
    List.Pairwise.sublist (List.filter_sublist src) hs
  have htsorted : ((src.filter (fun r => decide (c < r.id))).take n).Pairwise
      (fun a b => a.id < b.id) :=
    List.Pairwise.sublist (List.take_sublist _ _) hremsorted
  have hmax : ∀ a ∈ (src.filter (fun r => decide (c < r.id))).take n, a.id ≤ m.id := by
    have hh := sorted_getLast_max _ htsorted hne
    rw [heq] at hh
    exact hh
  have hmmem : m ∈ (src.filter (fun r => decide (c < r.id))).take n :=
    heq ▸ List.getLast_mem hne
  have hmrem : m ∈ src.filter (fun r => decide (c < r.id)) := List.mem_of_mem_take hmmem
  have hcm : c < m.id := by
    have h5 := List.of_mem_filter hmrem
    simpa using h5
  have hstep1 : src.filter (fun r => decide (m.id < r.id))
      = (src.filter (fun r => decide (c < r.id))).filter
          (fun r => decide (m.id < r.id)) := by
    rw [List.filter_filter]
    apply List.filter_congr
    intro a _
    by_cases hq : m.id < a.id
    · have hp2 : c < a.id := lt_trans hcm hq
      simp [hq, hp2]
    · simp [hq]
  rw [hstep1]
  rw [show (src.filter (fun r => decide (c < r.id))).filter (fun r => decide (m.id < r.id))
      = (((src.filter (fun r => decide (c < r.id))).take n
          ++ (src.filter (fun r => decide (c < r.id))).drop n).filter
            (fun r => decide (m.id < r.id)))
    from by rw [List.take_append_drop]]
  exact sorted_append_filter _ _ m
    (by rw [List.take_append_drop]; exact hremsorted) hmax hmmem

/-! ## Loop-step equations -/

theorem runUAux_zero (src : List SourceRecord) (st : RunStateU) :
    runUAux src 0 st = st := rfl

theorem runUAux_empty (src : List SourceRecord) (fuel : Nat) (st : RunStateU)
    (h : fetchU src st.lastId = []) : runUAux src (fuel + 1) st = st := by
  simp only [runUAux, h, List.isEmpty_nil, if_true]

theorem runUAux_succ (src : List SourceRecord) (fuel : Nat) (st : RunStateU)
    (h : fetchU src st.lastId ≠ []) :
    runUAux src (fuel + 1) st = runUAux src fuel
      { lastId := lastRowId (fetchU src st.lastId) st.lastId
        db := dbUpsertBatch st.db ((fetchU src st.lastId).map transformRow)
        totalProcessed := st.totalProcessed + (fetchU src st.lastId).length
        totalUpserted := st.totalUpserted + ((fetchU src st.lastId).map transformRow).length
        totalErrors := st.totalErrors } := by
  simp only [runUAux]
  rw [if_neg (fun hh => h (List.isEmpty_iff.mp hh))]

/-! ## Cursor-loop / chunk-fold bridge (upsert-overwrite variant) -/

theorem runUAux_eq_chunk (src : List SourceRecord)
    (hs : src.Pairwise (fun a b => a.id < b.id)) :
    ∀ (fuel : Nat) (st : RunStateU),
      (src.filter (fun r => decide (st.lastId < r.id))).length < fuel →
      (runUAux src fuel st).db
        = chunkFoldU (src.filter (fun r => decide (st.lastId < r.id))) st.db := by
  intro fuel
  induction fuel with
  | zero => intro st h; exact absurd h (Nat.not_lt_zero _)
  | succ fuel ih =>
    intro st hlen
    by_cases hnil : src.filter (fun r => decide (st.lastId < r.id)) = []
    · have hfetch : fetchU src st.lastId = [] := by
        rw [fetchU, hnil]
        rfl
      rw [runUAux_empty src fuel st hfetch, hnil, chunkFoldU_eq]
      simp
    · have htk : (src.filter (fun r => decide (st.lastId < r.id))).take BATCH_SIZE ≠ [] := by
        rw [Ne, List.take_eq_nil_iff]
        rintro (h | h)
        · exact absurd h (by decide)
        · exact hnil h
      have hfetch : fetchU src st.lastId
          = (src.filter (fun r => decide (st.lastId < r.id))).take BATCH_SIZE := rfl
      have hfne : fetchU src st.lastId ≠ [] := by rw [hfetch]; exact htk
      rw [runUAux_succ src fuel st hfne]
      have hlast : lastRowId (fetchU src st.lastId) st.lastId
          = (((src.filter (fun r => decide (st.lastId < r.id))).take
              BATCH_SIZE).getLast htk).id := by
        rw [hfetch, lastRowId, List.getLast?_eq_getLast _ htk]
      have hnext : src.filter (fun r => decide ((((src.filter
            (fun r => decide (st.lastId < r.id))).take BATCH_SIZE).getLast htk).id < r.id))
          = (src.filter (fun r => decide (st.lastId < r.id))).drop BATCH_SIZE :=
        sorted_filter_after src hs st.lastId BATCH_SIZE _
          (List.getLast?_eq_getLast _ htk)
      have hlen' : ((src.filter (fun r => decide (st.lastId < r.id))).drop
          BATCH_SIZE).length < fuel := by
        have h2 : 0 < (src.filter (fun r => decide (st.lastId < r.id))).length :=
          List.length_pos.mpr hnil
        rw [List.length_drop]
        have h3 : (src.filter (fun r => decide (st.lastId < r.id))).length < fuel + 1 := hlen
        have h4 : (0 : Nat) < BATCH_SIZE := by decide
        omega
      have hlen2 : (src.filter (fun r => decide
          ((lastRowId (fetchU src st.lastId) st.lastId) < r.id))).length < fuel := by
        rw [hlast, hnext]
        exact hlen'
      have hres := ih
        { lastId := lastRowId (fetchU src st.lastId) st.lastId
          db := dbUpsertBatch st.db ((fetchU src st.lastId).map transformRow)
          totalProcessed := st.totalProcessed + (fetchU src st.lastId).length
          totalUpserted := st.totalUpserted + ((fetchU src st.lastId).map transformRow).length
          totalErrors := st.totalErrors } hlen2
      rw [hres]
      show chunkFoldU (src.filter (fun r => decide
          ((lastRowId (fetchU src st.lastId) st.lastId) < r.id)))
          (dbUpsertBatch st.db ((fetchU src st.lastId).map transformRow))
        = chunkFoldU (src.filter (fun r => decide (st.lastId < r.id))) st.db
      rw [hlast, hnext, hfetch]
      conv_rhs => rw [chunkFoldU_eq]
      rw [if_neg hnil]

/-! ## pfBatch and chunk-fold lemmas (pre-filter loop) -/

theorem chunkFoldPF_eq (l : List SourceRecord) (db : Db) :
    chunkFoldPF l db = if l = [] then (db, 0)
      else
        ((chunkFoldPF (l.drop BATCH_SIZE)
            (pfBatch db (l.take BATCH_SIZE)
              (some (dbCheck db ((l.take BATCH_SIZE).map (fun r => r.id))))).1).1,
         (pfBatch db (l.take BATCH_SIZE)
            (some (dbCheck db ((l.take BATCH_SIZE).map (fun r => r.id))))).2
           + (chunkFoldPF (l.drop BATCH_SIZE)
              (pfBatch db (l.take BATCH_SIZE)
                (some (dbCheck db ((l.take BATCH_SIZE).map (fun r => r.id))))).1).2) := by
  rw [chunkFoldPF]
  split <;> rfl

theorem mem_dbCheck (db : Db) (ids : List Int) (i : Int) :
    i ∈ dbCheck db ids ↔ dbHasP db i ∧ i ∈ ids := by
  constructor
  · intro hmem
    obtain ⟨d, hdf, hdi⟩ := List.mem_map.mp hmem
    obtain ⟨hd, hc⟩ := List.mem_filter.mp hdf
    subst hdi
    exact ⟨⟨d, hd, rfl⟩, List.elem_iff.mp hc⟩
  · rintro ⟨⟨d, hd, hdi⟩, hids⟩
    subst hdi
    exact List.mem_map.mpr
      ⟨d, List.mem_filter.mpr ⟨hd, List.elem_eq_true_of_mem hids⟩, rfl⟩

theorem newRecordsOf_none (rows : List SourceRecord) :
    newRecordsOf none rows = rows.map transformRow := by
  unfold newRecordsOf
  simp

theorem newRecordsOf_check (db : Db) (rows : List SourceRecord) :
    newRecordsOf (some (dbCheck db (rows.map (fun r => r.id)))) rows
      = (rows.map transformRow).filter (fun rec => !(dbHas db rec.id)) := by
  unfold newRecordsOf
  simp only [Option.getD_some]
  apply List.filter_congr
  intro rec hrec
  obtain ⟨r, hr, hre⟩ := List.mem_map.mp hrec
  have hid : rec.id = r.id := by rw [← hre, transformRow_id]
  congr 1
  cases hb : dbHas db rec.id
  · have hnp := (dbHas_eq_false _ _).mp hb
    apply Bool.eq_false_iff.mpr
    intro ht
    exact hnp ((mem_dbCheck _ _ _).mp (List.elem_iff.mp ht)).1
  · have hhp := (dbHas_iff _ _).mp hb
    have h1 : rec.id ∈ dbCheck db (rows.map (fun r => r.id)) :=
      (mem_dbCheck _ _ _).mpr ⟨hhp, by rw [hid]; exact List.mem_map_of_mem _ hr⟩
    exact List.elem_eq_true_of_mem h1

theorem pfBatch_db_eq (db : Db) (rows : List SourceRecord) (cd : Option (List Int)) :
    (pfBatch db rows cd).1 = dbUpsertBatch db (newRecordsOf cd rows) := by
  unfold pfBatch
  by_cases h : (newRecordsOf cd rows).isEmpty = true
  · rw [if_pos h, List.isEmpty_iff.mp h]
    rfl
  · rw [if_neg h]

theorem dbUpsertBatch_append_fresh (recs : List DestinationRecord) :
    ∀ db : Db, (∀ rec ∈ recs, dbHas db rec.id = false) →
      ((recs.map (fun d => d.id)).Nodup) → dbUpsertBatch db recs = db ++ recs := by
  induction recs with
  | nil => intro db _ _; simp [dbUpsertBatch]
  | cons r rs ih =>
    intro db hfresh hnd
    rw [List.map_cons, List.nodup_cons] at hnd
    rw [dbUpsertBatch_cons]
    have hup : dbUpsert db r = db ++ [r] := by
      unfold dbUpsert
      rw [if_neg (by rw [hfresh r (List.mem_cons_self r rs)]; exact Bool.false_ne_true)]
    have hfresh2 : ∀ rec ∈ rs, dbHas (db ++ [r]) rec.id = false := by
      intro rec hrec
      have h1 : dbHas db rec.id = false := hfresh rec (List.mem_cons_of_mem _ hrec)
      have h2 : (r.id == rec.id) = false := by
        apply Bool.eq_false_iff.mpr
        intro ht
        rw [beq_iff_eq] at ht
        apply hnd.1
        rw [ht]
        exact List.mem_map_of_mem _ hrec
      unfold dbHas at h1 ⊢
      rw [List.any_append, h1]
      simp [List.any_cons, h2]
    rw [hup, ih (db ++ [r]) hfresh2 hnd.2, List.append_assoc]
    rfl

theorem pfBatch_insert_only (db : Db) (rows : List SourceRecord)
    (hnr : (rows.map (fun r => r.id)).Nodup) :
    (pfBatch db rows (some (dbCheck db (rows.map (fun r => r.id))))).1
      = db ++ (rows.map transformRow).filter (fun rec => !(dbHas db rec.id)) := by
  rw [pfBatch_db_eq, newRecordsOf_check]
  apply dbUpsertBatch_append_fresh
  · intro rec hrec
    have h5 := List.of_mem_filter hrec
    simpa using h5
  · have h1 : ((rows.map transformRow).map (fun d => d.id)).Nodup := by
      rw [transformed_ids]
      exact hnr
    exact List.Nodup.sublist (List.Sublist.map _ (List.filter_sublist _)) h1

theorem pfBatch_skip (db : Db) (rows : List SourceRecord)
    (h : ∀ r ∈ rows, dbHasP db r.id) :
    pfBatch db rows (some (dbCheck db (rows.map (fun r => r.id)))) = (db, 0) := by
  have hnil : newRecordsOf (some (dbCheck db (rows.map (fun r => r.id)))) rows = [] := by
    unfold newRecordsOf
    simp only [Option.getD_some]
    rw [List.filter_eq_nil_iff]
    intro rec hrec
    obtain ⟨r, hr, hre⟩ := List.mem_map.mp hrec
    have hid : rec.id = r.id := by rw [← hre, transformRow_id]
    have hmem : rec.id ∈ dbCheck db (rows.map (fun r => r.id)) := by
      apply (mem_dbCheck _ _ _).mpr
      exact ⟨hid ▸ h r hr, by rw [hid]; exact List.mem_map_of_mem _ hr⟩
    simp
    exact hmem
  unfold pfBatch
  rw [hnil]
  rfl

theorem dbHasP_pfBatch (db : Db) (rows : List SourceRecord) (cd : Option (List Int))
    (i : Int) (h : dbHasP db i) : dbHasP (pfBatch db rows cd).1 i := by
  rw [pfBatch_db_eq]
  exact dbHasP_upsertBatch _ _ _ h

theorem dbHasP_pfBatch_row (db : Db) (rows : List SourceRecord) (r : SourceRecord)
    (hr : r ∈ rows) :
    dbHasP (pfBatch db rows (some (dbCheck db (rows.map (fun r => r.id))))).1 r.id := by
  rw [pfBatch_db_eq]
  by_cases hh : dbHasP db r.id
  · exact dbHasP_upsertBatch _ _ _ hh
  · have hmem : transformRow r
        ∈ newRecordsOf (some (dbCheck db (rows.map (fun r => r.id)))) rows := by
      unfold newRecordsOf
      simp only [Option.getD_some]
      apply List.mem_filter.mpr
      refine ⟨List.mem_map_of_mem _ hr, ?_⟩
      have hnm : (transformRow r).id ∉ dbCheck db (rows.map (fun r => r.id)) := by
        intro hmem2
        have h6 := (mem_dbCheck _ _ _).mp hmem2
        rw [transformRow_id] at h6
        exact hh h6.1
      simp [hnm]
    have h7 := dbHasP_upsertBatch_self
      (newRecordsOf (some (dbCheck db (rows.map (fun r => r.id)))) rows) db
      (transformRow r) hmem
    rw [transformRow_id] at h7
    exact h7

theorem chunkFoldPF_allHas (l : List SourceRecord) (db : Db)
    (h : ∀ r ∈ l, dbHasP db r.id) : chunkFoldPF l db = (db, 0) := by
  induction l, db using chunkFoldPF.induct with
  | case1 db =>
    rw [chunkFoldPF_eq]
    simp
  | case2 l db hlne rows p ih =>
    rw [chunkFoldPF_eq, if_neg hlne]
    have hskip : pfBatch db (l.take BATCH_SIZE)
        (some (dbCheck db ((l.take BATCH_SIZE).map (fun r => r.id)))) = (db, 0) :=
      pfBatch_skip db _ (fun r hr => h r (List.mem_of_mem_take hr))
    have ih' : (∀ r ∈ l.drop BATCH_SIZE, dbHasP (pfBatch db (l.take BATCH_SIZE)
          (some (dbCheck db ((l.take BATCH_SIZE).map (fun r => r.id))))).1 r.id) →
        chunkFoldPF (l.drop BATCH_SIZE) (pfBatch db (l.take BATCH_SIZE)
          (some (dbCheck db ((l.take BATCH_SIZE).map (fun r => r.id))))).1
          = ((pfBatch db (l.take BATCH_SIZE)
            (some (dbCheck db ((l.take BATCH_SIZE).map (fun r => r.id))))).1, 0) := ih
    have hyp : ∀ r ∈ l.drop BATCH_SIZE, dbHasP (pfBatch db (l.take BATCH_SIZE)
        (some (dbCheck db ((l.take BATCH_SIZE).map (fun r => r.id))))).1 r.id := by
      rw [hskip]
      intro r hr
      exact h r (List.mem_of_mem_drop hr)
    have hrec := ih' hyp
    rw [hskip] at hrec ⊢
    rw [hrec]
    rfl

theorem chunkFoldPF_establishes (l : List SourceRecord) (db : Db) :
    ∀ i : Int, (dbHasP db i ∨ ∃ r ∈ l, r.id = i) → dbHasP (chunkFoldPF l db).1 i := by
  induction l, db using chunkFoldPF.induct with
  | case1 db =>
    intro i h
    rw [chunkFoldPF_eq]
    rcases h with h | ⟨r, hr, _⟩
    · simpa using h
    · cases hr
  | case2 l db hlne rows p ih =>
    intro i h
    rw [chunkFoldPF_eq, if_neg hlne]
    show dbHasP (chunkFoldPF (l.drop BATCH_SIZE)
      (pfBatch db (l.take BATCH_SIZE)
        (some (dbCheck db ((l.take BATCH_SIZE).map (fun r => r.id))))).1).1 i
    have ih' : ∀ j : Int, (dbHasP (pfBatch db (l.take BATCH_SIZE)
          (some (dbCheck db ((l.take BATCH_SIZE).map (fun r => r.id))))).1 j
          ∨ ∃ r ∈ l.drop BATCH_SIZE, r.id = j) →
        dbHasP (chunkFoldPF (l.drop BATCH_SIZE) (pfBatch db (l.take BATCH_SIZE)
          (some (dbCheck db ((l.take BATCH_SIZE).map (fun r => r.id))))).1).1 j := ih
    apply ih'
    rcases h with h | ⟨r, hr, hri⟩
    · exact Or.inl (dbHasP_pfBatch _ _ _ _ h)
    · rw [← List.take_append_drop BATCH_SIZE l, List.mem_append] at hr
      rcases hr with hrt | hrd
      · exact Or.inl (hri ▸ dbHasP_pfBatch_row db _ r hrt)
      · exact Or.inr ⟨r, hrd, hri⟩

/-! ## Loop-step equations and bridge (pre-filter variant) -/

theorem runPFAux_zero (src : List SourceRecord) (st : RunStatePF) :
    runPFAux src 0 st = st := rfl

theorem runPFAux_empty (src : List SourceRecord) (fuel : Nat) (st : RunStatePF)
    (h : fetchPF src st.lastId = []) : runPFAux src (fuel + 1) st = st := by
  simp only [runPFAux, h, List.isEmpty_nil, if_true]

theorem runPFAux_succ (src : List SourceRecord) (fuel : Nat) (st : RunStatePF)
    (h : fetchPF src st.lastId ≠ []) :
    runPFAux src (fuel + 1) st = runPFAux src fuel
      { lastId := lastRowId (fetchPF src st.lastId) st.lastId
        db := (pfBatch st.db (fetchPF src st.lastId)
          (some (dbCheck st.db ((fetchPF src st.lastId).map (fun r => r.id))))).1
        totalProcessed := st.totalProcessed + (fetchPF src st.lastId).length
        totalUpserted := st.totalUpserted + (pfBatch st.db (fetchPF src st.lastId)
          (some (dbCheck st.db ((fetchPF src st.lastId).map (fun r => r.id))))).2
        totalErrors := st.totalErrors } := by
  simp only [runPFAux]
  rw [if_neg (fun hh => h (List.isEmpty_iff.mp hh))]

theorem runPFAux_eq_chunk (src : List SourceRecord)
    (hs : src.Pairwise (fun a b => a.id < b.id)) (hp : ∀ r ∈ src, 0 < r.id) :
    ∀ (fuel : Nat) (st : RunStatePF), 0 ≤ st.lastId →
      (src.filter (fun r => decide (st.lastId < r.id))).length < fuel →
      (runPFAux src fuel st).db
          = (chunkFoldPF (src.filter (fun r => decide (st.lastId < r.id))) st.db).1
        ∧ (runPFAux src fuel st).totalUpserted
          = st.totalUpserted
            + (chunkFoldPF (src.filter (fun r => decide (st.lastId < r.id))) st.db).2 := by
  intro fuel
  induction fuel with
  | zero => intro st _ h; exact absurd h (Nat.not_lt_zero _)
  | succ fuel ih =>
    intro st hge hlen
    have hfetch : fetchPF src st.lastId
        = (src.filter (fun r => decide (st.lastId < r.id))).take BATCH_SIZE := by
      rcases lt_or_eq_of_le hge with hlt | heq0
      · rw [fetchPF, if_pos hlt]
      · rw [fetchPF, if_neg (by rw [← heq0]; exact lt_irrefl 0)]
        have hfs : src.filter (fun r => decide (st.lastId < r.id)) = src := by
          rw [List.filter_eq_self]
          intro a ha
          simp only [decide_eq_true_eq]
          rw [← heq0]
          exact hp a ha
        rw [hfs]
    by_cases hnil : src.filter (fun r => decide (st.lastId < r.id)) = []
    · have hf : fetchPF src st.lastId = [] := by rw [hfetch, hnil]; rfl
      rw [runPFAux_empty src fuel st hf, hnil, chunkFoldPF_eq]
      simp
    · have htk : (src.filter (fun r => decide (st.lastId < r.id))).take
          BATCH_SIZE ≠ [] := by
        rw [Ne, List.take_eq_nil_iff]
        rintro (h | h)
        · exact absurd h (by decide)
        · exact hnil h
      have hfne : fetchPF src st.lastId ≠ [] := by rw [hfetch]; exact htk
      rw [runPFAux_succ src fuel st hfne]
      have hlast : lastRowId (fetchPF src st.lastId) st.lastId
          = (((src.filter (fun r => decide (st.lastId < r.id))).take
              BATCH_SIZE).getLast htk).id := by
        rw [hfetch, lastRowId, List.getLast?_eq_getLast _ htk]
      have hpos' : 0 ≤ lastRowId (fetchPF src st.lastId) st.lastId := by
        rw [hlast]
        have hmem : ((src.filter (fun r => decide (st.lastId < r.id))).take
            BATCH_SIZE).getLast htk ∈ src :=
          List.mem_of_mem_filter (List.mem_of_mem_take (List.getLast_mem htk))
        exact le_of_lt (hp _ hmem)
      have hnext : src.filter (fun r => decide
          ((lastRowId (fetchPF src st.lastId) st.lastId) < r.id))
          = (src.filter (fun r => decide (st.lastId < r.id))).drop BATCH_SIZE := by
        rw [hlast]
        exact sorted_filter_after src hs st.lastId BATCH_SIZE _
          (List.getLast?_eq_getLast _ htk)
      have hlen' : ((src.filter (fun r => decide (st.lastId < r.id))).drop
          BATCH_SIZE).length < fuel := by
        have h2 : 0 < (src.filter (fun r => decide (st.lastId < r.id))).length :=
          List.length_pos.mpr hnil
        rw [List.length_drop]
        have h3 : (src.filter (fun r => decide (st.lastId < r.id))).length
            < fuel + 1 := hlen
        have h4 : (0 : Nat) < BATCH_SIZE := by decide
        omega
      have hlen2 : (src.filter (fun r => decide
          ((lastRowId (fetchPF src st.lastId) st.lastId) < r.id))).length < fuel := by
        rw [hnext]
        exact hlen'
      have hres := ih
        { lastId := lastRowId (fetchPF src st.lastId) st.lastId
          db := (pfBatch st.db (fetchPF src st.lastId)
            (some (dbCheck st.db ((fetchPF src st.lastId).map (fun r => r.id))))).1
          totalProcessed := st.totalProcessed + (fetchPF src st.lastId).length
          totalUpserted := st.totalUpserted + (pfBatch st.db (fetchPF src st.lastId)
            (some (dbCheck st.db ((fetchPF src st.lastId).map (fun r => r.id))))).2
          totalErrors := st.totalErrors } hpos' hlen2
      constructor
      · rw [hres.1]
        show (chunkFoldPF (src.filter (fun r => decide
            ((lastRowId (fetchPF src st.lastId) st.lastId) < r.id)))
            (pfBatch st.db (fetchPF src st.lastId)
              (some (dbCheck st.db ((fetchPF src st.lastId).map (fun r => r.id))))).1).1
          = (chunkFoldPF (src.filter (fun r => decide (st.lastId < r.id))) st.db).1
        rw [hnext, hfetch]
        conv_rhs => rw [chunkFoldPF_eq]
        rw [if_neg hnil]
      · rw [hres.2]
        show st.totalUpserted + (pfBatch st.db (fetchPF src st.lastId)
            (some (dbCheck st.db ((fetchPF src st.lastId).map (fun r => r.id))))).2
            + (chunkFoldPF (src.filter (fun r => decide
              ((lastRowId (fetchPF src st.lastId) st.lastId) < r.id)))
              (pfBatch st.db (fetchPF src st.lastId)
                (some (dbCheck st.db ((fetchPF src st.lastId).map (fun r => r.id))))).1).2
          = st.totalUpserted
            + (chunkFoldPF (src.filter (fun r => decide (st.lastId < r.id))) st.db).2
        rw [hnext, hfetch]
        conv_rhs => rw [chunkFoldPF_eq]
        rw [if_neg hnil]
        simp [Nat.add_assoc]

theorem runUDb_eq_chunk (src : List SourceRecord)
    (hs : src.Pairwise (fun a b => a.id < b.id)) (db0 : Db) :
    runUDb src db0 = chunkFoldU (src.filter (fun r => decide ((0 : Int) < r.id))) db0 := by
  unfold runUDb runU
  exact runUAux_eq_chunk src hs (src.length + 1)
    { lastId := 0, db := db0, totalProcessed := 0, totalUpserted := 0, totalErrors := 0 }
    (Nat.lt_succ_of_le (List.length_filter_le _ _))

theorem runPF_eq_chunk (src : List SourceRecord)
    (hs : src.Pairwise (fun a b => a.id < b.id)) (hp : ∀ r ∈ src, 0 < r.id) (db0 : Db) :
    (runPF src db0).db = (chunkFoldPF src db0).1
    ∧ (runPF src db0).totalUpserted = (chunkFoldPF src db0).2 := by
  have hfeq : src.filter (fun r => decide ((0 : Int) < r.id)) = src := by
    rw [List.filter_eq_self]
    intro a ha
    simpa using hp a ha
  have h := runPFAux_eq_chunk src hs hp (src.length + 1)
    { lastId := 0, db := db0, totalProcessed := 0, totalUpserted := 0, totalErrors := 0 }
    (le_refl 0) (Nat.lt_succ_of_le (List.length_filter_le _ _))
  unfold runPF
  constructor
  · refine h.1.trans ?_
    show (chunkFoldPF (src.filter (fun r => decide ((0 : Int) < r.id))) db0).1
      = (chunkFoldPF src db0).1
    rw [hfeq]
  · refine h.2.trans ?_
    show 0 + (chunkFoldPF (src.filter (fun r => decide ((0 : Int) < r.id))) db0).2
      = (chunkFoldPF src db0).2
    rw [hfeq, Nat.zero_add]

/-! ## C5: idempotence of the full migration -/

/-- C5: for a finite source table (listed in ascending id order, with the
strictly positive ids the cursor model assumes), running the full
migration twice yields a destination table identical in content to
running it once; rows carrying a source id have `opensearch_sync = false`
after the runs (and from an empty destination, every row does); under the
pre-filter variant the second run performs zero destination writes. -/
theorem C5_idempotent (src : List SourceRecord) (db0 : Db)
    (hs : src.Pairwise (fun a b => a.id < b.id))
    (hp : ∀ r ∈ src, 0 < r.id)
    (hnd : (db0.map (fun d => d.id)).Nodup) :
    runUDb src (runUDb src db0) = runUDb src db0
    ∧ (∀ d ∈ runUDb src db0, d.id ∈ src.map (fun r => r.id) →
        d.opensearch_sync = false)
    ∧ (∀ d ∈ runUDb src ([] : Db), d.opensearch_sync = false)
    ∧ (runPF src (runPF src db0).db).totalUpserted = 0 := by
  have hremS : (src.filter (fun r => decide ((0 : Int) < r.id))).Pairwise
      (fun a b => a.id < b.id) :=
    List.Pairwise.sublist (List.filter_sublist src) hs
  have hrun : ∀ dbx : Db, runUDb src dbx
      = chunkFoldU (src.filter (fun r => decide ((0 : Int) < r.id))) dbx :=
    fun dbx => runUDb_eq_chunk src hs dbx
  have hnd1 : ((runUDb src db0).map (fun d => d.id)).Nodup := by
    rw [hrun db0]
    exact chunkFoldU_nodup _ _ hnd
  have hest : ∀ r ∈ src.filter (fun r => decide ((0 : Int) < r.id)),
      transformRow r ∈ runUDb src db0 := by
    rw [hrun db0]
    exact chunkFoldU_establish _ _ hremS
  refine ⟨?_, ?_, ?_, ?_⟩
  · rw [hrun (runUDb src db0)]
    exact chunkFoldU_idempotent _ _ hnd1 hest
  · intro d hd hid
    obtain ⟨r, hr, hri⟩ := List.mem_map.mp hid
    have hrfilter : r ∈ src.filter (fun r => decide ((0 : Int) < r.id)) :=
      List.mem_filter.mpr ⟨hr, by simpa using hp r hr⟩
    have htr := hest r hrfilter
    have hde : d = transformRow r :=
      List.inj_on_of_nodup_map hnd1 hd htr (by rw [transformRow_id, hri])
    rw [hde]
    rfl
  · intro d hd
    rw [hrun ([] : Db)] at hd
    rcases chunkFoldU_mem_elim _ _ _ hd with h1 | ⟨r, _, hre⟩
    · cases h1
    · rw [hre]
      rfl
  · have hpfrun := runPF_eq_chunk src hs hp db0
    have hhas : ∀ r ∈ src, dbHasP (runPF src db0).db r.id := by
      intro r hr
      rw [hpfrun.1]
      exact chunkFoldPF_establishes src db0 r.id (Or.inr ⟨r, hr, rfl⟩)
    have h2 := runPF_eq_chunk src hs hp (runPF src db0).db
    rw [h2.2, chunkFoldPF_allHas src _ hhas]

/-- Witness for C5 at a concrete two-row source table. -/
theorem C5_idempotent_witness :
    runUDb srcTwo (runUDb srcTwo []) = runUDb srcTwo []
    ∧ (runPF srcTwo (runPF srcTwo []).db).totalUpserted = 0 := by
  have h := C5_idempotent srcTwo [] (by decide) (by decide) (by decide)
  exact ⟨h.1, h.2.2.2⟩

/-! ## C6: pre-filter leaves existing rows untouched -/

/-- C6: in the pre-filter variant, a batch with an accurate existence
check appends only the transformed rows whose ids are not already in the
destination; the destination prefix — every pre-existing row, including
its `opensearch_sync` flag — is returned verbatim, and every written
record's id was absent beforehand. -/
theorem C6_prefilter_untouched (db : Db) (rows : List SourceRecord)
    (hnr : (rows.map (fun r => r.id)).Nodup) :
    (pfBatch db rows (some (dbCheck db (rows.map (fun r => r.id))))).1
      = db ++ (rows.map transformRow).filter (fun rec => !(dbHas db rec.id))
    ∧ (∀ rec ∈ (rows.map transformRow).filter (fun rec => !(dbHas db rec.id)),
        ¬ dbHasP db rec.id) := by
  refine ⟨pfBatch_insert_only db rows hnr, ?_⟩
  intro rec hrec
  have h5 := List.of_mem_filter hrec
  have h6 : dbHas db rec.id = false := by simpa using h5
  exact (dbHas_eq_false _ _).mp h6

/-- Witness for C6: a destination row for id 1 with its sync flag true is
returned unchanged, and only id 2 is written. -/
theorem C6_prefilter_untouched_witness :
    (pfBatch dbStale srcTwo (some (dbCheck dbStale (srcTwo.map (fun r => r.id))))).1
      = dbStale ++ (srcTwo.map transformRow).filter
          (fun rec => !(dbHas dbStale rec.id)) :=
  (C6_prefilter_untouched dbStale srcTwo (by decide)).1

/-! ## C9: a resolved error payload defeats the pre-filter -/

/-- C9: the try/catch around the existence query only reacts to THROWN
errors, so a query that resolves with an error payload (hence
`data = null`) proceeds normally; the set of existing ids is then empty,
the whole batch — including rows whose ids already exist — is upserted,
and each such existing row is overwritten with its fresh transform, whose
`opensearch_sync` is false, contrary to the insert-new-only intent. -/
theorem C9_error_payload_resets (db : Db) (rows : List SourceRecord)
    (hnr : (rows.map (fun r => r.id)).Nodup) :
    (∀ (data : Option (List Int)) (errorPayload : Bool),
        existenceCheck (QueryOutcome.resolved data errorPayload)
          = CheckStep.proceed data)
    ∧ newRecordsOf none rows = rows.map transformRow
    ∧ (pfBatch db rows none).1 = dbUpsertBatch db (rows.map transformRow)
    ∧ (∀ r ∈ rows, dbHasP db r.id →
        dbFind (pfBatch db rows none).1 r.id = some (transformRow r)
          ∧ (transformRow r).opensearch_sync = false) := by
  refine ⟨fun _ _ => rfl, newRecordsOf_none rows, ?_, ?_⟩
  · rw [pfBatch_db_eq, newRecordsOf_none]
  · intro r hr _
    refine ⟨?_, rfl⟩
    rw [pfBatch_db_eq, newRecordsOf_none]
    have hfind := dbFind_upsertBatch_mem (rows.map transformRow) db (transformRow r)
      (List.mem_map_of_mem _ hr) (by rw [transformed_ids]; exact hnr)
    rw [transformRow_id] at hfind
    exact hfind

/-- Witness for C9: the stale destination row for id 1 is overwritten
with a fresh transform whose sync flag is false. -/
theorem C9_error_payload_resets_witness :
    dbFind (pfBatch dbStale srcOne none).1 (blankSource 1).id
        = some (transformRow (blankSource 1))
    ∧ (transformRow (blankSource 1)).opensearch_sync = false := by
  have h := C9_error_payload_resets dbStale srcOne (by decide)
  exact h.2.2.2 (blankSource 1) (by decide) ⟨destOneStale, by decide, by decide⟩

/-! ## C10: the two fetchers and nonpositive ids -/

/-- C10: the fetchers agree at every cursor a run can hold (any positive
cursor; cursor 0 as well when every source id is positive); every row
migrate_records.js fetches has a positive id; for an id-sorted source
containing a nonpositive id the first pages differ — part_000's first
page can include such a row while migrate_records.js never fetches nor
migrates it (its destination entry at any nonpositive id is untouched by
a full run). -/
theorem C10_fetcher_divergence :
    (∀ (src : List SourceRecord) (lastId : Int), 0 < lastId →
        fetchPF src lastId = fetchU src lastId)
    ∧ (∀ src : List SourceRecord, (∀ r ∈ src, 0 < r.id) →
        ∀ lastId : Int, 0 ≤ lastId → fetchPF src lastId = fetchU src lastId)
    ∧ (∀ (src : List SourceRecord) (lastId : Int), 0 ≤ lastId →
        ∀ r ∈ fetchU src lastId, 0 < r.id)
    ∧ (∀ src : List SourceRecord, src.Pairwise (fun a b => a.id < b.id) →
        (∃ r ∈ src, r.id ≤ 0) → fetchPF src 0 ≠ fetchU src 0)
    ∧ fetchU [rowNonPos] 0 = []
    ∧ fetchPF [rowNonPos] 0 = [rowNonPos]
    ∧ (∀ (src : List SourceRecord) (db0 : Db),
        src.Pairwise (fun a b => a.id < b.id) →
        ∀ i : Int, i ≤ 0 → dbFind (runUDb src db0) i = dbFind db0 i) := by
  have h3 : ∀ (src : List SourceRecord) (lastId : Int), 0 ≤ lastId →
      ∀ r ∈ fetchU src lastId, 0 < r.id := by
    intro src lastId hge r hr
    have hrf := List.mem_of_mem_take hr
    have h5 := List.of_mem_filter hrf
    have hlt : lastId < r.id := by simpa using h5
    omega
  refine ⟨?_, ?_, h3, ?_, by decide, by decide, ?_⟩
  · intro src lastId h
    rw [fetchPF, if_pos h]
    rfl
  · intro src hp lastId hge
    rcases lt_or_eq_of_le hge with hlt | heq0
    · rw [fetchPF, if_pos hlt]
      rfl
    · rw [fetchPF, if_neg (by rw [← heq0]; exact lt_irrefl 0), fetchU]
      have hfs : src.filter (fun r => decide (lastId < r.id)) = src := by
        rw [List.filter_eq_self]
        intro a ha
        simp only [decide_eq_true_eq]
        rw [← heq0]
        exact hp a ha
      rw [hfs]
  · intro src hs hex heq
    obtain ⟨r, hr, hrle⟩ := hex
    cases src with
    | nil => cases hr
    | cons hd tl =>
      have hhd : hd.id ≤ 0 := by
        rcases List.mem_cons.mp hr with rfl | hmem
        · exact hrle
        · have h6 := (List.pairwise_cons.mp hs).1 r hmem
          omega
      have hhdmem : hd ∈ fetchPF (hd :: tl) 0 := by
        rw [fetchPF, if_neg (lt_irrefl 0)]
        have htake : (hd :: tl).take BATCH_SIZE = hd :: tl.take 999 := rfl
        rw [htake]
        exact List.mem_cons_self _ _
      exact absurd (h3 (hd :: tl) 0 (le_refl 0) hd (heq ▸ hhdmem)) (by omega)
  · intro src db0 hs i hle
    rw [runUDb_eq_chunk src hs db0]
    apply chunkFoldU_find_frame
    intro r hr
    have h5 := List.of_mem_filter hr
    have h0 : (0 : Int) < r.id := by simpa using h5
    omega

/-- Witness for C10 at a concrete source table and cursor. -/
theorem C10_fetcher_divergence_witness :
    fetchPF srcOne 5 = fetchU srcOne 5
    ∧ dbFind (runUDb srcOne []) 0 = dbFind ([] : Db) 0 := by
  have h := C10_fetcher_divergence
  exact ⟨h.1 srcOne 5 (by decide),
    h.2.2.2.2.2.2 srcOne [] (by decide) 0 (by decide)⟩

/-! ## C7: bounded upsert retry -/

/-- With `maxRetries = 3` the retry loop has only the paths determined by
the first three attempt outcomes. -/
theorem upsertWithRetry_eval (oracle : Nat → UpsertAttempt) :
    upsertWithRetry oracle MAX_RETRIES
      = match oracle 1 with
        | UpsertAttempt.ok => { success := true, attempts := 1, delays := [] }
        | _ =>
          match oracle 2 with
          | UpsertAttempt.ok =>
            { success := true, attempts := 2, delays := [RETRY_DELAY] }
          | _ =>
            match oracle 3 with
            | UpsertAttempt.ok =>
              { success := true, attempts := 3, delays := [RETRY_DELAY, RETRY_DELAY] }
            | _ =>
              { success := false, attempts := 3,
                delays := [RETRY_DELAY, RETRY_DELAY] } := by
  rcases h1 : oracle 1 <;> rcases h2 : oracle 2 <;> rcases h3 : oracle 3 <;>
    simp [upsertWithRetry, upsertWithRetryGo, MAX_RETRIES, h1, h2, h3]

/-- C7: the destination write is attempted at most `MAX_RETRIES = 3`
times with a fixed `RETRY_DELAY = 1000` ms sleep before each re-attempt;
a run that reports failure used all three attempts (none succeeded); and
in the loop a failed `upsertWithRetry` only increments the error counter
— the iteration still advances the cursor and continues with the next
page instead of crashing. -/
theorem C7_retry_contract :
    MAX_RETRIES = 3 ∧ RETRY_DELAY = 1000
    ∧ (∀ oracle : Nat → UpsertAttempt,
        (upsertWithRetry oracle MAX_RETRIES).attempts ≤ MAX_RETRIES
        ∧ (upsertWithRetry oracle MAX_RETRIES).delays
            = List.replicate ((upsertWithRetry oracle MAX_RETRIES).attempts - 1)
                RETRY_DELAY
        ∧ ((upsertWithRetry oracle MAX_RETRIES).success = false →
            (upsertWithRetry oracle MAX_RETRIES).attempts = MAX_RETRIES
            ∧ ∀ k, 1 ≤ k → k ≤ MAX_RETRIES → oracle k ≠ UpsertAttempt.ok))
    ∧ (∀ (st : RunStatePF) (rows : List SourceRecord)
        (checkData : Option (List Int)) (oracle : Nat → UpsertAttempt),
        rows.isEmpty = false → (newRecordsOf checkData rows).isEmpty = false →
        (upsertWithRetry oracle MAX_RETRIES).success = false →
        pfIter st rows checkData oracle = LoopStep.next
          { st with totalErrors := st.totalErrors + 1
                    lastId := lastRowId rows st.lastId
                    totalProcessed := st.totalProcessed + rows.length }) := by
  refine ⟨rfl, rfl, ?_, ?_⟩
  · intro oracle
    rw [upsertWithRetry_eval]
    rcases h1 : oracle 1 <;> rcases h2 : oracle 2 <;> rcases h3 : oracle 3 <;>
      simp only [h1, h2, h3] <;>
      exact ⟨by decide, by decide, by
        intro hfail
        first
          | exact absurd hfail (by decide)
          | exact ⟨rfl, by
              intro k hk1 hk3
              have hk3' : k ≤ 3 := hk3
              interval_cases k <;> simp [h1, h2, h3]⟩⟩
  · intro st rows checkData oracle hrows hnew hfail
    simp only [pfIter]
    rw [if_neg (by rw [hrows]; exact Bool.false_ne_true)]
    rw [if_neg (by rw [hnew]; exact Bool.false_ne_true)]
    rw [if_neg (by rw [hfail]; exact Bool.false_ne_true)]

/-- Witness for C7 with an always-failing attempt oracle. -/
theorem C7_retry_contract_witness :
    (upsertWithRetry alwaysErr MAX_RETRIES).attempts ≤ MAX_RETRIES
    ∧ (upsertWithRetry alwaysErr MAX_RETRIES).delays
        = List.replicate ((upsertWithRetry alwaysErr MAX_RETRIES).attempts - 1)
            RETRY_DELAY
    ∧ pfIter stPF0 srcOne none alwaysErr = LoopStep.next
        { stPF0 with totalErrors := stPF0.totalErrors + 1
                     lastId := lastRowId srcOne stPF0.lastId
                     totalProcessed := stPF0.totalProcessed + srcOne.length } := by
  have h := C7_retry_contract
  exact ⟨(h.2.2.1 alwaysErr).1, (h.2.2.1 alwaysErr).2.1,
    h.2.2.2 stPF0 srcOne none alwaysErr (by decide) (by decide) (by decide)⟩

/-! ## C8: skip-and-advance fetch-failure policy -/

theorem runUFault_allFail (oracle : Nat → FetchResult)
    (hall : ∀ i, oracle i = FetchResult.failure) :
    ∀ (fuel callIdx : Nat) (st : RunStateU),
      st.totalErrors ≤ 10 → 11 - st.totalErrors ≤ fuel →
      runUFault oracle fuel callIdx st
        = ({ st with
              totalErrors := 11
              lastId := st.lastId
                + ((11 - st.totalErrors : Nat) : Int) * (BATCH_SIZE : Int) },
           callIdx + (10 - st.totalErrors)) := by
  intro fuel
  induction fuel with
  | zero =>
    intro callIdx st he hf
    exact absurd hf (by omega)
  | succ fuel ih =>
    intro callIdx st he hf
    obtain ⟨li, dbx, tp, tu, te⟩ := st
    simp only at he hf ⊢
    simp only [runUFault, hall callIdx, fetchFailStep]
    by_cases hcase : te = 10
    · subst hcase
      rw [if_pos (show (10 : Nat) + 1 > 10 by omega)]
      simp only [Prod.mk.injEq, RunStateU.mk.injEq, BATCH_SIZE, and_true, true_and]
      all_goals omega
    · rw [if_neg (show ¬ (te + 1 > 10) by omega)]
      have hrec := ih (callIdx + 1)
        { lastId := li + (BATCH_SIZE : Int), db := dbx, totalProcessed := tp,
          totalUpserted := tu, totalErrors := te + 1 }
        (show te + 1 ≤ 10 by omega)
        (show (11 : Nat) - (te + 1) ≤ fuel by omega)
      rw [hrec]
      simp only [Prod.mk.injEq, RunStateU.mk.injEq, BATCH_SIZE, and_true, true_and]
      all_goals omega

/-- C8: every fetch error advances the cursor by exactly one page-width
(`lastId += BATCH_SIZE`), increments the failure count and continues the
loop (projection equations of `fetchFailStep`); and once the failure
count exceeds 10 — on the 11th consecutive fetch failure from a fresh
start — the run stops after exactly 11 fetch calls with exit code 1,
before processing any batch (counters zero, destination untouched). -/
theorem C8_skip_and_advance :
    (∀ (oracle : Nat → FetchResult) (fuel callIdx : Nat) (st : RunStateU),
        oracle callIdx = FetchResult.failure → st.totalErrors + 1 ≤ 10 →
        runUFault oracle (fuel + 1) callIdx st
          = runUFault oracle fuel (callIdx + 1) (fetchFailStep st))
    ∧ (∀ st : RunStateU,
        (fetchFailStep st).lastId = st.lastId + (BATCH_SIZE : Int)
        ∧ (fetchFailStep st).totalErrors = st.totalErrors + 1
        ∧ (fetchFailStep st).db = st.db
        ∧ (fetchFailStep st).totalProcessed = st.totalProcessed
        ∧ (fetchFailStep st).totalUpserted = st.totalUpserted)
    ∧ (∀ (oracle : Nat → FetchResult) (fuel : Nat) (db0 : Db),
        (∀ i, oracle i = FetchResult.failure) → 11 ≤ fuel →
        runUFaultMain oracle fuel db0
          = (({ lastId := (11000 : Int), db := db0, totalProcessed := 0,
                totalUpserted := 0, totalErrors := 11 }, 11), 1)) := by
  refine ⟨?_, ?_, ?_⟩
  · intro oracle fuel callIdx st ho hle
    simp only [runUFault, ho]
    rw [if_neg (by simp only [fetchFailStep]; omega)]
  · intro st
    exact ⟨rfl, rfl, rfl, rfl, rfl⟩
  · intro oracle fuel db0 hall hfuel
    unfold runUFaultMain
    obtain ⟨fuel, rfl⟩ : ∃ f, fuel = f + 11 := ⟨fuel - 11, by omega⟩
    have hstart := runUFault_allFail oracle hall (fuel + 11) 1
      { lastId := 0, db := db0, totalProcessed := 0, totalUpserted := 0,
        totalErrors := 0 }
      (show (0 : Nat) ≤ 10 by decide)
      (show (11 : Nat) - 0 ≤ fuel + 11 by omega)
    rw [hstart]
    simp only [Prod.mk.injEq, RunStateU.mk.injEq, BATCH_SIZE, and_true, true_and]
    exact ⟨by norm_num, by norm_num⟩

/-- Witness for C8 at an always-failing fetch oracle. -/
theorem C8_skip_and_advance_witness :
    runUFaultMain alwaysFail 11 []
      = (({ lastId := (11000 : Int), db := [], totalProcessed := 0,
            totalUpserted := 0, totalErrors := 11 }, 11), 1) :=
  C8_skip_and_advance.2.2 alwaysFail 11 [] (fun _ => rfl) (le_refl 11)

end Migrate
